import Mathlib

/-!
Verification development for the Dire Wolf (lightweight) packet TNC core:
the AX.25/HDLC serializer (hdlc_send.c), the per-bit HDLC deframer
(hdlc_rec.c), the DCD aggregation fabric (hdlc_rec.c), and the transmit
scheduler (xmit.c).

The C sources are embedded shallowly: the per-channel static arrays become
explicit state records, bits are `Bool` (`true` = 1), octets and shift
registers are `Nat` kept below 256 by the same masking the C performs, and
C `int` variables that may be negative (such as `olen`) become `Int`.
Functions absent from the source tree (fcs_calc.c, ax25_pad.c,
hdlc_rec2.c) are modelled from the specification and marked as such.
-/

namespace Direwolf

/-! ### Frame-size constants

`MAX_CHANS`, `MAX_SUBCHANS`, `MAX_SLICERS`, `MAX_ADEVS` are from direwolf.h.
`AX25_MIN_PACKET_LEN` and `AX25_MAX_PACKET_LEN` live in ax25_pad.h which is
not part of the source tree; the spec gives 15 and 256 octets. -/

def MAX_ADEVS : Nat := 3
def MAX_CHANS : Nat := 6
def MAX_SUBCHANS : Nat := 9
def MAX_SLICERS : Nat := 9

/-- Modelled from the spec: minimum AX.25 packet length in octets
("typically 15 octets"); ax25_pad.h is absent from the source tree. -/
def AX25_MIN_PACKET_LEN : Nat := 15

/-- Modelled from the spec: maximum AX.25 packet length in octets
("maximum 256 octets"); ax25_pad.h is absent from the source tree. -/
def AX25_MAX_PACKET_LEN : Nat := 256

/-- hdlc_rec.c: minimum frame size including the 2-octet FCS. -/
def MIN_FRAME_LEN : Nat := AX25_MIN_PACKET_LEN + 2

/-- hdlc_rec.c: maximum frame size including the 2-octet FCS. -/
def MAX_FRAME_LEN : Nat := AX25_MAX_PACKET_LEN + 2

/-! ### CRC-16 (FCS)

fcs_calc.c is not in the source tree; only its header is referenced. -/

/-- Modelled from the spec: one bit step of the reflected CCITT CRC-16
with polynomial 0x1021 (reflected 0x8408): "CCITT-16, initial value
0xFFFF, reflected, polynomial 0x1021, final XOR 0xFFFF". -/
def fcs_step_bit (crc : Nat) : Nat :=
  if crc % 2 = 1 then (crc / 2) ^^^ 0x8408 else crc / 2

/-- Modelled from the spec: absorb one octet into the reflected CRC-16. -/
def fcs_byte (crc b : Nat) : Nat :=
  fcs_step_bit (fcs_step_bit (fcs_step_bit (fcs_step_bit
    (fcs_step_bit (fcs_step_bit (fcs_step_bit (fcs_step_bit
      (crc ^^^ (b % 256)))))))))

/-- Modelled from the spec: `fcs_calc` of fcs_calc.c (absent from the
source tree): reflected CCITT CRC-16, initial value 0xFFFF, final
XOR 0xFFFF, over a list of octets. -/
def fcs_calc (bytes : List Nat) : Nat :=
  (bytes.foldl fcs_byte 0xffff) ^^^ 0xffff

/-! ### The serializer (hdlc_send.c)

State of one transmit channel.  `stuff` is the static ones-run counter
`stuff[chan]`, `output` the static NRZI line state `output[chan]` inside
`send_bit_nrzi`, `nbits` the counter `number_of_bits_sent[chan]`, and
`emitted` records the bits handed to `tone_gen_put_bit`, oldest first. -/

structure SendState where
  stuff : Nat
  output : Bool
  nbits : Nat
  emitted : List Bool
  deriving Repr, DecidableEq

/-- hdlc_send.c `send_bit_nrzi`: a 0 data bit inverts the line, a 1 data
bit leaves it unchanged; the (possibly inverted) line level is emitted. -/
def send_bit_nrzi (st : SendState) (b : Bool) : SendState :=
  let out := if b then st.output else !st.output
  { st with output := out, emitted := st.emitted ++ [out], nbits := st.nbits + 1 }

/-- hdlc_send.c `send_data_nrzi`, body of the per-bit loop: send the data
bit, then maintain the ones-run counter, inserting a stuffed 0 bit after
five consecutive ones. -/
def send_data_bit (st : SendState) (b : Bool) : SendState :=
  let st1 := send_bit_nrzi st b
  if b then
    let st2 := { st1 with stuff := st1.stuff + 1 }
    if st2.stuff = 5 then
      let st3 := send_bit_nrzi st2 false
      { st3 with stuff := 0 }
    else st2
  else { st1 with stuff := 0 }

/-- The eight bits of an octet, least significant first (the AX.25
transmission order used by both hdlc_send.c and hdlc_rec.c). -/
def byteBits (x : Nat) : List Bool :=
  [x.testBit 0, x.testBit 1, x.testBit 2, x.testBit 3,
   x.testBit 4, x.testBit 5, x.testBit 6, x.testBit 7]

/-- hdlc_send.c `send_data_nrzi`: an octet LSB first with bit stuffing. -/
def send_data_nrzi (st : SendState) (x : Nat) : SendState :=
  (byteBits x).foldl send_data_bit st

/-- hdlc_send.c `send_control_nrzi`: an octet LSB first, no stuffing, and
the ones-run counter is reset afterwards. -/
def send_control_nrzi (st : SendState) (x : Nat) : SendState :=
  let st1 := (byteBits x).foldl send_bit_nrzi st
  { st1 with stuff := 0 }

/-- hdlc_send.c `ax25_only_hdlc_send_frame`: start flag, bit-stuffed
payload, FCS little-endian (complemented when `bad_fcs`), end flag.
`output0` is the per-channel NRZI line state persisting from earlier
transmissions; `number_of_bits_sent` is reset on entry. -/
def ax25_only_hdlc_send_frame (output0 : Bool) (fbuf : List Nat) (bad_fcs : Bool) :
    SendState :=
  let st0 : SendState := { stuff := 0, output := output0, nbits := 0, emitted := [] }
  let st1 := send_control_nrzi st0 0x7e
  let st2 := fbuf.foldl send_data_nrzi st1
  let fcs := fcs_calc fbuf
  let st3 :=
    if bad_fcs then
      send_data_nrzi (send_data_nrzi st2 ((fcs &&& 0xff) ^^^ 0xff))
        (((fcs >>> 8) &&& 0xff) ^^^ 0xff)
    else
      send_data_nrzi (send_data_nrzi st2 (fcs &&& 0xff)) ((fcs >>> 8) &&& 0xff)
  send_control_nrzi st3 0x7e

/-! ### Logical views of the serialized stream

`stuffEnc` is the data-bit stream after bit stuffing but before NRZI;
`nrziEnc` is the NRZI line encoding.  They are related to the serializer
state machine by the correspondence lemmas below. -/

/-- Bit stuffing of a data-bit list, entered with ones-run counter `s`:
after the fifth consecutive one a zero is inserted and the counter
resets; any zero data bit resets the counter. -/
def stuffEnc : Nat → List Bool → List Bool
  | _, [] => []
  | s, true :: t =>
      if s = 4 then true :: false :: stuffEnc 0 t else true :: stuffEnc (s + 1) t
  | _, false :: t => false :: stuffEnc 0 t

/-- Ones-run counter value after feeding a (stuffed-domain) data-bit list
through `send_data_bit`. -/
def stuffAfter (s : Nat) (bs : List Bool) : Nat :=
  bs.foldl (fun c b => if b then (if c = 4 then 0 else c + 1) else 0) s

/-- NRZI encoding of a bit list from line state `line`: 1 keeps the line,
0 inverts it. -/
def nrziEnc : Bool → List Bool → List Bool
  | _, [] => []
  | line, b :: t =>
      let out := if b then line else !line
      out :: nrziEnc out t

/-- Line state after NRZI-encoding a bit list. -/
def lineAfter (line : Bool) (bs : List Bool) : Bool :=
  bs.foldl (fun l b => if b then l else !l) line

/-- The flag octet 0x7E as a data-bit list, transmission (LSB-first) order. -/
def flagBits : List Bool :=
  [false, true, true, true, true, true, true, false]

/-- LSB-first bits of a list of octets, concatenated in order. -/
def bytesBits (bytes : List Nat) : List Bool :=
  bytes.flatMap byteBits

/-- The two FCS octets as transmitted: low octet then high octet. -/
def fcsBytes (fbuf : List Nat) : List Nat :=
  [fcs_calc fbuf &&& 0xff, (fcs_calc fbuf >>> 8) &&& 0xff]

/-! ### The deframer (hdlc_rec.c)

One `hdlc_state_s` of the `hdlc_state[chan][subchan][slice]` array.  Each
(channel, sub-channel, slicer) triple owns an independent copy, so a
single record suffices.  `frame_buf` is the live prefix of the C byte
array, so `frame_len` is its length; `candidates` records the raw-bit
buffers handed to `hdlc_rec2_block`, oldest first.  The descrambler
fields (`lfsr`, `prev_descram`) and `flag4_det` take no part in any
branch of `hdlc_rec_bit` for the unscrambled case and are omitted. -/

structure HdlcState where
  prev_raw : Bool
  pat_det : Nat
  oacc : Nat
  olen : Int
  frame_buf : List Nat
  rrbb : List Bool
  candidates : List (List Bool)
  deriving Repr, DecidableEq

/-- hdlc_rec.c `frame_len` field: number of live octets in `frame_buf`. -/
def HdlcState.frame_len (H : HdlcState) : Nat := H.frame_buf.length

/-- hdlc_rec.c `hdlc_rec_init`: `olen = -1`, everything else zeroed
(static storage), raw-bit buffer fresh. -/
def hdlc_rec_init_state : HdlcState :=
  { prev_raw := false, pat_det := 0, oacc := 0, olen := -1,
    frame_buf := [], rrbb := [], candidates := [] }

/-- hdlc_rec.c `rrbb_chop8`: drop the last eight raw bits (the flag). -/
def rrbb_chop8 (l : List Bool) : List Bool := l.take (l.length - 8)

/-- hdlc_rec.c `hdlc_rec_bit` for one (channel, sub-channel, slicer) state,
with `recv_ber = 0` (no artificial error injection) and the unscrambled
path.  NRZI decode, pattern detection, flag / abort / de-stuffing
handling, octet assembly.  A flag hand-off appends the chopped raw-bit
buffer to `candidates` (the C passes it to `hdlc_rec2_block`). -/
def hdlc_rec_bit (H : HdlcState) (raw : Bool) : HdlcState :=
  let dbit : Bool := raw == H.prev_raw
  let p : Nat := H.pat_det / 2 + (if dbit then 0x80 else 0)
  let H1 : HdlcState :=
    { H with prev_raw := raw, pat_det := p, rrbb := H.rrbb ++ [raw] }
  if p = 0x7e then
    let chopped := rrbb_chop8 H1.rrbb
    let H2 : HdlcState :=
      if chopped.length ≥ MIN_FRAME_LEN * 8 then
        { H1 with candidates := H1.candidates ++ [chopped], rrbb := [] }
      else
        { H1 with rrbb := [] }
    { H2 with olen := 0, frame_buf := [], rrbb := H2.rrbb ++ [raw] }
  else if p = 0xfe then
    { H1 with olen := -1, frame_buf := [], rrbb := [] }
  else if p &&& 0xfc = 0x7c then
    H1
  else if H1.olen ≥ 0 then
    let oacc := H1.oacc / 2 + (if dbit then 0x80 else 0)
    let olen := H1.olen + 1
    if olen = 8 then
      if H1.frame_buf.length < MAX_FRAME_LEN then
        { H1 with oacc := oacc, olen := 0, frame_buf := H1.frame_buf ++ [oacc] }
      else
        { H1 with oacc := oacc, olen := 0 }
    else
      { H1 with oacc := oacc, olen := olen }
  else
    H1

/-- Feed a list of raw bits through `hdlc_rec_bit` in arrival order. -/
def hdlc_run (H : HdlcState) (bits : List Bool) : HdlcState :=
  bits.foldl hdlc_rec_bit H

/-! ### The frame dispatcher (hdlc_rec2.c, absent from the source tree) -/

/-- NRZI decoding of a raw-bit list given the previous raw bit: a data 1
is no change, a data 0 is a transition. -/
def nrziDecode : Bool → List Bool → List Bool
  | _, [] => []
  | prev, r :: t => (r == prev) :: nrziDecode r t

/-- Modelled from the spec: counter-based de-stuffing used by the frame
dispatcher when re-decoding a raw-bit buffer — "If the low six bits of
the detector are five ones followed by a zero, drop the zero".  A zero
arriving when the ones-run counter has reached five is dropped. -/
def destuffDec : Nat → List Bool → List Bool
  | _, [] => []
  | c, true :: t => true :: destuffDec (c + 1) t
  | c, false :: t =>
      if c ≥ 5 then destuffDec 0 t else false :: destuffDec 0 t

/-- Group a bit list into octets, LSB first, dropping a trailing partial
octet. -/
def bitsToBytes : List Bool → List Nat
  | b0 :: b1 :: b2 :: b3 :: b4 :: b5 :: b6 :: b7 :: t =>
      ((if b0 then 1 else 0) + (if b1 then 2 else 0) + (if b2 then 4 else 0) +
       (if b3 then 8 else 0) + (if b4 then 16 else 0) + (if b5 then 32 else 0) +
       (if b6 then 64 else 0) + (if b7 then 128 else 0)) :: bitsToBytes t
  | _ => []

/-- Modelled from the spec: `hdlc_rec2_block` and the frame dispatcher
(hdlc_rec2.c / multi_modem.c, absent from the source tree).  The raw-bit
buffer starts with the final bit of the opening flag (the NRZI seed);
decode NRZI, de-stuff, assemble octets; "compute CRC-16 over all but the
final two octets; compare to the final two octets interpreted
little-endian"; on success the packet (without FCS) becomes a frame
event.  No retry bits are attempted (`fix_bits = 0`). -/
def hdlc_rec2_block (rrbb : List Bool) : Option (List Nat) :=
  match rrbb with
  | [] => none
  | seed :: rest =>
      let octets := bitsToBytes (destuffDec 0 (nrziDecode seed rest))
      let n := octets.length
      if n ≥ MIN_FRAME_LEN ∧
          octets.drop (n - 2) =
            [fcs_calc (octets.take (n - 2)) &&& 0xff,
             (fcs_calc (octets.take (n - 2)) >>> 8) &&& 0xff] then
        some (octets.take (n - 2))
      else none

/-- Frame events delivered to the event queue (`dlq_rec_frame` appends
each validated frame, part_004): the payloads of the candidates that
pass dispatcher validation, oldest first. -/
def frameEvents (H : HdlcState) : List (List Nat) :=
  H.candidates.filterMap hdlc_rec2_block

/-- Run detector: `true` when the list contains six consecutive ones,
counting a run of `c` ones already in progress on entry. -/
def hasSixOnes : Nat → List Bool → Bool
  | _, [] => false
  | c, true :: t => if c + 1 ≥ 6 then true else hasSixOnes (c + 1) t
  | _, false :: t => hasSixOnes 0 t

/-! ### Serializer correspondence lemmas

The state machine of hdlc_send.c is related to the logical
stuff-then-NRZI pipeline `nrziEnc line (stuffEnc s bits)`. -/

theorem nrziEnc_cons (line b : Bool) (t : List Bool) :
    nrziEnc line (b :: t) =
      (if b then line else !line) :: nrziEnc (if b then line else !line) t := rfl

theorem lineAfter_cons (line b : Bool) (t : List Bool) :
    lineAfter line (b :: t) = lineAfter (if b then line else !line) t := rfl

theorem nrziEnc_append (line : Bool) (xs ys : List Bool) :
    nrziEnc line (xs ++ ys) = nrziEnc line xs ++ nrziEnc (lineAfter line xs) ys := by
  induction xs generalizing line with
  | nil => simp [nrziEnc, lineAfter]
  | cons b t ih =>
      rw [List.cons_append, nrziEnc_cons, nrziEnc_cons, lineAfter_cons, ih,
        List.cons_append]

theorem lineAfter_append (line : Bool) (xs ys : List Bool) :
    lineAfter line (xs ++ ys) = lineAfter (lineAfter line xs) ys := by
  simp [lineAfter, List.foldl_append]

theorem stuffAfter_append (s : Nat) (xs ys : List Bool) :
    stuffAfter s (xs ++ ys) = stuffAfter (stuffAfter s xs) ys := by
  simp [stuffAfter, List.foldl_append]

theorem stuffEnc_append (s : Nat) (xs ys : List Bool) :
    stuffEnc s (xs ++ ys) = stuffEnc s xs ++ stuffEnc (stuffAfter s xs) ys := by
  induction xs generalizing s with
  | nil => simp [stuffEnc, stuffAfter]
  | cons b t ih =>
      cases b with
      | false => simp [stuffEnc, stuffAfter, List.foldl_cons] at *; exact ih 0
      | true =>
          by_cases h : s = 4 <;>
            simp [stuffEnc, stuffAfter, List.foldl_cons, h] at * <;>
            [exact ih 0; exact ih (s + 1)]

theorem length_nrziEnc (line : Bool) (bs : List Bool) :
    (nrziEnc line bs).length = bs.length := by
  induction bs generalizing line with
  | nil => rfl
  | cons b t ih => simp [nrziEnc, ih]

/-- One `send_data_bit` call viewed through the logical pipeline. -/
theorem send_data_bit_eq (st : SendState) (b : Bool) :
    send_data_bit st b =
      { stuff := stuffAfter st.stuff [b],
        output := lineAfter st.output (stuffEnc st.stuff [b]),
        nbits := st.nbits + (stuffEnc st.stuff [b]).length,
        emitted := st.emitted ++ nrziEnc st.output (stuffEnc st.stuff [b]) } := by
  cases b with
  | false => simp [send_data_bit, send_bit_nrzi, stuffAfter, stuffEnc, lineAfter, nrziEnc]
  | true =>
      by_cases h : st.stuff = 4 <;>
        simp [send_data_bit, send_bit_nrzi, stuffAfter, stuffEnc, lineAfter, nrziEnc, h]

/-- Folding `send_data_bit` over any data-bit list. -/
theorem foldl_send_data_bit (bs : List Bool) (st : SendState) :
    bs.foldl send_data_bit st =
      { stuff := stuffAfter st.stuff bs,
        output := lineAfter st.output (stuffEnc st.stuff bs),
        nbits := st.nbits + (stuffEnc st.stuff bs).length,
        emitted := st.emitted ++ nrziEnc st.output (stuffEnc st.stuff bs) } := by
  induction bs generalizing st with
  | nil => simp [stuffAfter, stuffEnc, lineAfter, nrziEnc]
  | cons b t ih =>
      have hsplit : (b :: t) = [b] ++ t := rfl
      rw [List.foldl_cons, ih, send_data_bit_eq, hsplit,
        stuffEnc_append, stuffAfter_append, nrziEnc_append, lineAfter_append]
      simp [length_nrziEnc, List.append_assoc]
      omega

/-- `send_data_nrzi` of one octet viewed through the logical pipeline. -/
theorem send_data_nrzi_eq (st : SendState) (x : Nat) :
    send_data_nrzi st x =
      { stuff := stuffAfter st.stuff (byteBits x),
        output := lineAfter st.output (stuffEnc st.stuff (byteBits x)),
        nbits := st.nbits + (stuffEnc st.stuff (byteBits x)).length,
        emitted := st.emitted ++ nrziEnc st.output (stuffEnc st.stuff (byteBits x)) } :=
  foldl_send_data_bit (byteBits x) st

theorem foldl_send_bit_nrzi (bs : List Bool) (st : SendState) :
    bs.foldl send_bit_nrzi st =
      { stuff := st.stuff,
        output := lineAfter st.output bs,
        nbits := st.nbits + bs.length,
        emitted := st.emitted ++ nrziEnc st.output bs } := by
  induction bs generalizing st with
  | nil => simp [lineAfter, nrziEnc]
  | cons b t ih =>
      rw [List.foldl_cons, ih]
      cases b <;> simp [send_bit_nrzi, lineAfter, nrziEnc, List.foldl_cons] <;> omega

/-- `send_control_nrzi` sends the un-stuffed octet and zeroes the
ones-run counter. -/
theorem send_control_nrzi_eq (st : SendState) (x : Nat) :
    send_control_nrzi st x =
      { stuff := 0,
        output := lineAfter st.output (byteBits x),
        nbits := st.nbits + 8,
        emitted := st.emitted ++ nrziEnc st.output (byteBits x) } := by
  rw [send_control_nrzi, foldl_send_bit_nrzi]
  simp [byteBits]

theorem bytesBits_cons (x : Nat) (t : List Nat) :
    bytesBits (x :: t) = byteBits x ++ bytesBits t := by
  simp [bytesBits]

/-- Folding `send_data_nrzi` over a byte list. -/
theorem foldl_send_data_nrzi (bytes : List Nat) (st : SendState) :
    bytes.foldl send_data_nrzi st =
      { stuff := stuffAfter st.stuff (bytesBits bytes),
        output := lineAfter st.output (stuffEnc st.stuff (bytesBits bytes)),
        nbits := st.nbits + (stuffEnc st.stuff (bytesBits bytes)).length,
        emitted := st.emitted ++ nrziEnc st.output (stuffEnc st.stuff (bytesBits bytes)) } := by
  induction bytes generalizing st with
  | nil => simp [bytesBits, stuffAfter, stuffEnc, lineAfter, nrziEnc]
  | cons x t ih =>
      rw [List.foldl_cons, send_data_nrzi_eq, ih, bytesBits_cons,
        stuffEnc_append, stuffAfter_append, nrziEnc_append, lineAfter_append]
      simp [length_nrziEnc, List.append_assoc]
      omega

theorem byteBits_flag : byteBits 0x7e = flagBits := by decide

/-- The whole-frame emission of `ax25_only_hdlc_send_frame` with a good
FCS: NRZI encoding of flag, stuffed payload-plus-FCS bits, flag. -/
theorem send_frame_emitted (L0 : Bool) (fbuf : List Nat) :
    ax25_only_hdlc_send_frame L0 fbuf false =
      { stuff := 0,
        output := lineAfter L0 (flagBits ++
          stuffEnc 0 (bytesBits (fbuf ++ fcsBytes fbuf)) ++ flagBits),
        nbits := 16 + (stuffEnc 0 (bytesBits (fbuf ++ fcsBytes fbuf))).length,
        emitted := nrziEnc L0 (flagBits ++
          stuffEnc 0 (bytesBits (fbuf ++ fcsBytes fbuf)) ++ flagBits) } := by
  rw [ax25_only_hdlc_send_frame]
  simp only [if_neg Bool.false_ne_true, Bool.false_eq_true, if_false]
  rw [send_control_nrzi_eq, foldl_send_data_nrzi, send_data_nrzi_eq,
    send_data_nrzi_eq, send_control_nrzi_eq]
  have hfcs : bytesBits (fbuf ++ fcsBytes fbuf) =
      bytesBits fbuf ++ byteBits (fcs_calc fbuf &&& 0xff) ++
        byteBits ((fcs_calc fbuf >>> 8) &&& 0xff) := by
    simp [bytesBits, fcsBytes]
  rw [byteBits_flag]
  simp only [hfcs, stuffEnc_append, stuffAfter_append, nrziEnc_append,
    lineAfter_append, length_nrziEnc, List.length_append, List.append_assoc,
    List.nil_append]
  refine SendState.mk.injEq .. ▸ ⟨rfl, ?_, ?_, ?_⟩ <;>
    simp [flagBits, length_nrziEnc, nrziEnc_append, lineAfter_append,
      stuffEnc_append, stuffAfter_append, List.append_assoc]
  omega

/-- The bit-stuffed stream never contains six consecutive ones, for any
entry counter value at most 4 (the counter equals the length of the
one-run in progress). -/
theorem hasSixOnes_stuffEnc (bs : List Bool) (s : Nat) (hs : s ≤ 4) :
    hasSixOnes s (stuffEnc s bs) = false := by
  induction bs generalizing s with
  | nil => rfl
  | cons b t ih =>
      cases b with
      | false => simpa [stuffEnc, hasSixOnes] using ih 0 (by omega)
      | true =>
          by_cases h : s = 4
          · subst h
            simpa [stuffEnc, hasSixOnes] using ih 0 (by omega)
          · have h1 : ¬ s + 1 ≥ 6 := by omega
            have h2 : s + 1 ≤ 4 := by omega
            simpa [stuffEnc, hasSixOnes, h, h1] using ih (s + 1) h2

theorem length_stuffEnc_ge (s : Nat) (bs : List Bool) :
    bs.length ≤ (stuffEnc s bs).length := by
  induction bs generalizing s with
  | nil => simp [stuffEnc]
  | cons b t ih =>
      cases b with
      | false => simpa [stuffEnc] using ih 0
      | true =>
          by_cases h : s = 4 <;> simp [stuffEnc, h]
          · exact Nat.le_succ_of_le (ih 0)
          · exact ih (s + 1)

theorem length_bytesBits (l : List Nat) : (bytesBits l).length = 8 * l.length := by
  induction l with
  | nil => rfl
  | cons x t ih => simp [bytesBits_cons, byteBits, ih]; ring

/-! ### Claim C2 -/

/-- C2: for every payload of length in [AX25_MIN_PACKET_LEN,
AX25_MAX_PACKET_LEN] and every preceding per-channel NRZI line state, the
serializer first emits a flag octet; the data-bit stream between the
start and end flags (payload plus CRC, before NRZI) contains no run of
six or more consecutive one bits (after five consecutive ones a zero is
inserted and the counter resets, and any zero data bit resets it); and
the return value (`number_of_bits_sent`) counts every emitted bit,
stuffed bits and both flags included. -/
theorem c2_serializer_flag_and_stuffing (L0 : Bool) (fbuf : List Nat)
    (h1 : AX25_MIN_PACKET_LEN ≤ fbuf.length)
    (h2 : fbuf.length ≤ AX25_MAX_PACKET_LEN) :
    (ax25_only_hdlc_send_frame L0 fbuf false).emitted.take 8 = nrziEnc L0 flagBits ∧
    (ax25_only_hdlc_send_frame L0 fbuf false).emitted =
      nrziEnc L0 (flagBits ++ stuffEnc 0 (bytesBits (fbuf ++ fcsBytes fbuf)) ++ flagBits) ∧
    hasSixOnes 0 (stuffEnc 0 (bytesBits (fbuf ++ fcsBytes fbuf))) = false ∧
    (ax25_only_hdlc_send_frame L0 fbuf false).nbits =
      (ax25_only_hdlc_send_frame L0 fbuf false).emitted.length := by
  rw [send_frame_emitted]
  refine ⟨?_, rfl, hasSixOnes_stuffEnc _ 0 (by omega), ?_⟩
  · rw [List.append_assoc, nrziEnc_append]
    have h8 : (nrziEnc L0 flagBits).length = 8 := by
      rw [length_nrziEnc]; rfl
    rw [← h8, List.take_left]
  · rw [length_nrziEnc]
    simp [flagBits]
    omega

/-- Witness for C2 at the 15-octet all-zero payload and line state 0. -/
theorem c2_serializer_flag_and_stuffing_witness :
    (ax25_only_hdlc_send_frame false (List.replicate 15 0) false).nbits =
      (ax25_only_hdlc_send_frame false (List.replicate 15 0) false).emitted.length :=
  (c2_serializer_flag_and_stuffing false (List.replicate 15 0)
    (by decide) (by decide)).2.2.2

/-! ### Pattern-detector invariant for the deframer proofs

While the deframer consumes the stuffed data section of a frame, its
8-bit pattern detector always holds `s` one bits on top (bit 7 downward,
`s` the sender's ones-run counter) with a zero bit just below them.
This is enough to rule out the flag, abort and de-stuffing branches at
data-bit positions, and to force the de-stuffing branch at stuffed-bit
positions. -/

/-- The assembly branch of `hdlc_rec_bit` is taken at detector value `q`. -/
def safeAssembly (q : Nat) : Prop :=
  q ≠ 0x7e ∧ q ≠ 0xfe ∧ q &&& 0xfc ≠ 0x7c

/-- Detector invariant at a data-bit boundary with sender ones-run
counter `s`: top `s` bits are ones, the next bit down is zero. -/
def patInv (p s : Nat) : Prop :=
  p < 256 ∧ s ≤ 4 ∧ p >>> (8 - s) = 2 ^ s - 1 ∧ p.testBit (7 - s) = false

instance (q : Nat) : Decidable (safeAssembly q) := by
  unfold safeAssembly; infer_instance

instance (p s : Nat) : Decidable (patInv p s) := by
  unfold patInv; infer_instance

set_option maxRecDepth 4000

/-- A one data bit (counter below 4) keeps the detector safe for
assembly and re-establishes the invariant. -/
theorem patInv_step_one : ∀ p < 256, ∀ s < 4, patInv p s →
    safeAssembly (p / 2 + 128) ∧ patInv (p / 2 + 128) (s + 1) := by decide

/-- The fifth consecutive one data bit followed by the stuffed zero: the
one is assembled, then the zero hits exactly the de-stuffing branch. -/
theorem patInv_step_one4 : ∀ p < 256, patInv p 4 →
    safeAssembly (p / 2 + 128) ∧
    (p / 2 + 128) / 2 ≠ 0x7e ∧ (p / 2 + 128) / 2 ≠ 0xfe ∧
    (p / 2 + 128) / 2 &&& 0xfc = 0x7c ∧ patInv ((p / 2 + 128) / 2) 0 := by decide

/-- A zero data bit keeps the detector safe for assembly and resets the
invariant counter. -/
theorem patInv_step_zero : ∀ p < 256, ∀ s ≤ 4, patInv p s →
    safeAssembly (p / 2) ∧ patInv (p / 2) 0 := by decide

/-- The fifth and sixth of the six consecutive one bits of a closing
flag, then its final zero: both ones are assembled and the detector
lands exactly on the flag value 0x7E. -/
theorem patInv_flag_tail : ∀ p < 256, patInv p 4 →
    safeAssembly (p / 2 + 128) ∧
    safeAssembly ((p / 2 + 128) / 2 + 128) ∧
    ((p / 2 + 128) / 2 + 128) / 2 = 0x7e := by
  decide

/-! ### Deframer step lemmas -/

/-- When the updated detector avoids the flag, abort and de-stuffing
patterns and accumulation is enabled (`olen = j`, `0 ≤ j < 8`), one
`hdlc_rec_bit` call shifts the data bit into the octet accumulator. -/
theorem hdlc_rec_bit_assembly (H : HdlcState) (raw : Bool) (j : Nat)
    (holen : H.olen = (j : Int)) (hj : j < 8)
    (hsafe : safeAssembly (H.pat_det / 2 + (if raw == H.prev_raw then 128 else 0))) :
    ∃ fb2 : List Nat,
      hdlc_rec_bit H raw =
        { prev_raw := raw,
          pat_det := H.pat_det / 2 + (if raw == H.prev_raw then 128 else 0),
          oacc := H.oacc / 2 + (if raw == H.prev_raw then 128 else 0),
          olen := (((j + 1) % 8 : Nat) : Int),
          frame_buf := fb2,
          rrbb := H.rrbb ++ [raw],
          candidates := H.candidates } := by
  obtain ⟨h1, h2, h3⟩ := hsafe
  have hge : H.olen ≥ 0 := by rw [holen]; exact Int.ofNat_nonneg j
  by_cases hj7 : j = 7
  · subst hj7
    refine ⟨if H.frame_buf.length < MAX_FRAME_LEN then
        H.frame_buf ++ [H.oacc / 2 + (if raw == H.prev_raw then 128 else 0)]
      else H.frame_buf, ?_⟩
    simp only [hdlc_rec_bit, if_neg h1, if_neg h2, if_neg h3, if_pos hge, holen]
    norm_num
    by_cases hroom : H.frame_buf.length < MAX_FRAME_LEN <;> simp [hroom]
  · refine ⟨H.frame_buf, ?_⟩
    simp only [hdlc_rec_bit, if_neg h1, if_neg h2, if_neg h3, if_pos hge, holen]
    have hne : (j : Int) + 1 ≠ 8 := by omega
    have hmod : (j + 1) % 8 = j + 1 := Nat.mod_eq_of_lt (by omega)
    simp [hne, hmod]

/-- When the updated detector shows five ones followed by a zero (and is
not the flag), the current zero bit is dropped: only `prev_raw`,
`pat_det` and the raw-bit buffer change. -/
theorem hdlc_rec_bit_destuff (H : HdlcState) (raw : Bool)
    (hmask : (H.pat_det / 2 + (if raw == H.prev_raw then 128 else 0)) &&& 0xfc = 0x7c)
    (hflag : (H.pat_det / 2 + (if raw == H.prev_raw then 128 else 0)) ≠ 0x7e) :
    hdlc_rec_bit H raw =
      { H with
        prev_raw := raw,
        pat_det := H.pat_det / 2 + (if raw == H.prev_raw then 128 else 0),
        rrbb := H.rrbb ++ [raw] } := by
  have habort : (H.pat_det / 2 + (if raw == H.prev_raw then 128 else 0)) ≠ 0xfe := by
    intro h
    rw [h] at hmask
    exact absurd hmask (by decide)
  simp only [hdlc_rec_bit, if_neg hflag, if_neg habort, if_pos hmask]

/-- Specialized cons equations for the logical stream functions. -/
theorem nrziEnc_cons_true (line : Bool) (t : List Bool) :
    nrziEnc line (true :: t) = line :: nrziEnc line t := rfl

theorem nrziEnc_cons_false (line : Bool) (t : List Bool) :
    nrziEnc line (false :: t) = (!line) :: nrziEnc (!line) t := rfl

theorem lineAfter_cons_true (line : Bool) (t : List Bool) :
    lineAfter line (true :: t) = lineAfter line t := rfl

theorem lineAfter_cons_false (line : Bool) (t : List Bool) :
    lineAfter line (false :: t) = lineAfter (!line) t := rfl

/-- Running the deframer over the NRZI encoding (from its own `prev_raw`
as line state) of the stuffed form of any data-bit list: under the
detector invariant, no flag, abort or hand-off can occur; data bits are
assembled, stuffed bits dropped, every raw bit lands in the raw-bit
buffer, and the detector invariant is re-established. -/
theorem data_bits_run (bs : List Bool) (s j : Nat) (H : HdlcState)
    (hpat : patInv H.pat_det s) (holen : H.olen = (j : Int)) (hj : j < 8) :
    ∃ p2 oacc2 fb2,
      hdlc_run H (nrziEnc H.prev_raw (stuffEnc s bs)) =
        { prev_raw := lineAfter H.prev_raw (stuffEnc s bs),
          pat_det := p2, oacc := oacc2,
          olen := (((j + bs.length) % 8 : Nat) : Int),
          frame_buf := fb2,
          rrbb := H.rrbb ++ nrziEnc H.prev_raw (stuffEnc s bs),
          candidates := H.candidates } ∧
      patInv p2 (stuffAfter s bs) := by
  induction bs generalizing s j H with
  | nil =>
      refine ⟨H.pat_det, H.oacc, H.frame_buf, ?_, ?_⟩
      · have hmod : (j + ([] : List Bool).length) % 8 = j := by
          simp [Nat.mod_eq_of_lt hj]
        rw [show stuffEnc s ([] : List Bool) = [] from rfl, hmod, ← holen]
        show H = _
        simp [lineAfter, nrziEnc]
      · simpa [stuffAfter] using hpat
  | cons b t ih =>
      have hp256 : H.pat_det < 256 := hpat.1
      have hs4 : s ≤ 4 := hpat.2.1
      cases b with
      | false =>
          obtain ⟨hsafe, hpat1⟩ := patInv_step_zero H.pat_det hp256 s hs4 hpat
          have hbeq : ((!H.prev_raw) == H.prev_raw) = false := by
            cases H.prev_raw <;> rfl
          obtain ⟨fb1, hstep⟩ := hdlc_rec_bit_assembly H (!H.prev_raw) j holen hj
            (by rw [hbeq]; simpa using hsafe)
          set H1 : HdlcState := hdlc_rec_bit H (!H.prev_raw) with hH1
          have hpr1 : H1.prev_raw = !H.prev_raw := by rw [hstep]
          have hpat1a : patInv H1.pat_det 0 := by
            rw [hstep]; simpa [hbeq] using hpat1
          have holen1 : H1.olen = (((j + 1) % 8 : Nat) : Int) := by rw [hstep]
          have hrrbb1 : H1.rrbb = H.rrbb ++ [!H.prev_raw] := by rw [hstep]
          have hcand1 : H1.candidates = H.candidates := by rw [hstep]
          obtain ⟨p2, oacc2, fb2, hrun, hpat2⟩ :=
            ih 0 ((j + 1) % 8) H1 hpat1a holen1 (Nat.mod_lt _ (by omega))
          refine ⟨p2, oacc2, fb2, ?_, ?_⟩
          · rw [show stuffEnc s (false :: t) = false :: stuffEnc 0 t from rfl,
              nrziEnc_cons_false, lineAfter_cons_false]
            show List.foldl hdlc_rec_bit H _ = _
            rw [List.foldl_cons, ← hH1]
            rw [show nrziEnc (!H.prev_raw) (stuffEnc 0 t) =
                nrziEnc H1.prev_raw (stuffEnc 0 t) from by rw [hpr1]]
            rw [show List.foldl hdlc_rec_bit H1 (nrziEnc H1.prev_raw (stuffEnc 0 t)) =
                hdlc_run H1 (nrziEnc H1.prev_raw (stuffEnc 0 t)) from rfl, hrun]
            have hmod : ((j + 1) % 8 + t.length) % 8 = (j + (false :: t).length) % 8 := by
              simp only [List.length_cons]; omega
            rw [hpr1, hrrbb1, hcand1, hmod]
            simp [List.append_assoc]
          · simpa [stuffAfter] using hpat2
      | true =>
          by_cases hseq : s = 4
          · -- the fifth consecutive one: the sender inserts a stuffed zero
            subst hseq
            obtain ⟨hsafe1, hne7e, hnefe, hmask, hpat1⟩ :=
              patInv_step_one4 H.pat_det hp256 hpat
            have hbeq : (H.prev_raw == H.prev_raw) = true := by simp
            obtain ⟨fb1, hstep1⟩ := hdlc_rec_bit_assembly H H.prev_raw j holen hj
              (by rw [hbeq]; simpa using hsafe1)
            set H1 : HdlcState := hdlc_rec_bit H H.prev_raw with hH1
            have hpr1 : H1.prev_raw = H.prev_raw := by rw [hstep1]
            have hpd1 : H1.pat_det = H.pat_det / 2 + 128 := by
              rw [hstep1]; simp [hbeq]
            have holen1 : H1.olen = (((j + 1) % 8 : Nat) : Int) := by rw [hstep1]
            have hrrbb1 : H1.rrbb = H.rrbb ++ [H.prev_raw] := by rw [hstep1]
            have hcand1 : H1.candidates = H.candidates := by rw [hstep1]
            have hbeq2 : ((!H.prev_raw) == H1.prev_raw) = false := by
              rw [hpr1]; cases H.prev_raw <;> rfl
            have hstep2 := hdlc_rec_bit_destuff H1 (!H.prev_raw)
              (by rw [hbeq2]; simpa [hpd1] using hmask)
              (by rw [hbeq2]; simpa [hpd1] using hne7e)
            set H2 : HdlcState := hdlc_rec_bit H1 (!H.prev_raw) with hH2
            have hpr2 : H2.prev_raw = !H.prev_raw := by rw [hstep2]
            have hpat2a : patInv H2.pat_det 0 := by
              rw [hstep2]
              simpa [hbeq2, hpd1] using hpat1
            have holen2 : H2.olen = (((j + 1) % 8 : Nat) : Int) := by
              rw [hstep2]; exact holen1
            have hrrbb2 : H2.rrbb = H.rrbb ++ [H.prev_raw, !H.prev_raw] := by
              rw [hstep2]
              show H1.rrbb ++ [!H.prev_raw] = _
              rw [hrrbb1, List.append_assoc]
              rfl
            have hcand2 : H2.candidates = H.candidates := by
              rw [hstep2]; exact hcand1
            obtain ⟨p2, oacc2, fb2, hrun, hpat2⟩ :=
              ih 0 ((j + 1) % 8) H2 hpat2a holen2 (Nat.mod_lt _ (by omega))
            refine ⟨p2, oacc2, fb2, ?_, ?_⟩
            · rw [show stuffEnc 4 (true :: t) = true :: false :: stuffEnc 0 t from rfl,
                nrziEnc_cons_true, nrziEnc_cons_false, lineAfter_cons_true,
                lineAfter_cons_false]
              show List.foldl hdlc_rec_bit H _ = _
              rw [List.foldl_cons, ← hH1, List.foldl_cons, ← hH2]
              rw [show nrziEnc (!H.prev_raw) (stuffEnc 0 t) =
                  nrziEnc H2.prev_raw (stuffEnc 0 t) from by rw [hpr2]]
              rw [show List.foldl hdlc_rec_bit H2 (nrziEnc H2.prev_raw (stuffEnc 0 t)) =
                  hdlc_run H2 (nrziEnc H2.prev_raw (stuffEnc 0 t)) from rfl, hrun]
              have hmod : ((j + 1) % 8 + t.length) % 8 = (j + (true :: t).length) % 8 := by
                simp only [List.length_cons]; omega
              rw [hpr2, hrrbb2, hcand2, hmod]
              simp [List.append_assoc]
            · simpa [stuffAfter] using hpat2
          · -- an ordinary one data bit
            obtain ⟨hsafe, hpat1⟩ :=
              patInv_step_one H.pat_det hp256 s (by omega) hpat
            have hbeq : (H.prev_raw == H.prev_raw) = true := by simp
            obtain ⟨fb1, hstep⟩ := hdlc_rec_bit_assembly H H.prev_raw j holen hj
              (by rw [hbeq]; simpa using hsafe)
            set H1 : HdlcState := hdlc_rec_bit H H.prev_raw with hH1
            have hpr1 : H1.prev_raw = H.prev_raw := by rw [hstep]
            have hpat1a : patInv H1.pat_det (s + 1) := by
              rw [hstep]; simpa [hbeq] using hpat1
            have holen1 : H1.olen = (((j + 1) % 8 : Nat) : Int) := by rw [hstep]
            have hrrbb1 : H1.rrbb = H.rrbb ++ [H.prev_raw] := by rw [hstep]
            have hcand1 : H1.candidates = H.candidates := by rw [hstep]
            obtain ⟨p2, oacc2, fb2, hrun, hpat2⟩ :=
              ih (s + 1) ((j + 1) % 8) H1 hpat1a holen1 (Nat.mod_lt _ (by omega))
            refine ⟨p2, oacc2, fb2, ?_, ?_⟩
            · rw [show stuffEnc s (true :: t) = true :: stuffEnc (s + 1) t from by
                  simp [stuffEnc, hseq],
                nrziEnc_cons_true, lineAfter_cons_true]
              show List.foldl hdlc_rec_bit H _ = _
              rw [List.foldl_cons, ← hH1]
              rw [show nrziEnc H.prev_raw (stuffEnc (s + 1) t) =
                  nrziEnc H1.prev_raw (stuffEnc (s + 1) t) from by rw [hpr1]]
              rw [show List.foldl hdlc_rec_bit H1 (nrziEnc H1.prev_raw (stuffEnc (s + 1) t)) =
                  hdlc_run H1 (nrziEnc H1.prev_raw (stuffEnc (s + 1) t)) from rfl, hrun]
              have hmod : ((j + 1) % 8 + t.length) % 8 = (j + (true :: t).length) % 8 := by
                simp only [List.length_cons]; omega
              rw [hpr1, hrrbb1, hcand1, hmod]
              simp [List.append_assoc]
            · simpa [stuffAfter, hseq] using hpat2

/-- Processing the NRZI-encoded opening flag from the freshly initialized
decoder (line state 0 matching `prev_raw = 0`): the flag is recognized,
accumulation is enabled, and the raw-bit buffer is re-seeded with the
final bit of the flag. -/
theorem startflag_run :
    hdlc_run hdlc_rec_init_state (nrziEnc false flagBits) =
      { prev_raw := false, pat_det := 0x7e, oacc := 0, olen := 0,
        frame_buf := [], rrbb := [false], candidates := [] } := by decide

/-- When the updated detector equals the flag 0x7E and the chopped
raw-bit buffer is long enough, `hdlc_rec_bit` hands it off as a
candidate, re-enables accumulation and re-seeds the raw-bit buffer. -/
theorem hdlc_rec_bit_flag (H : HdlcState) (raw : Bool)
    (hp : H.pat_det / 2 + (if raw == H.prev_raw then 128 else 0) = 0x7e)
    (hlen : MIN_FRAME_LEN * 8 ≤ (rrbb_chop8 (H.rrbb ++ [raw])).length) :
    hdlc_rec_bit H raw =
      { prev_raw := raw, pat_det := 0x7e, oacc := H.oacc, olen := 0,
        frame_buf := [], rrbb := [raw],
        candidates := H.candidates ++ [rrbb_chop8 (H.rrbb ++ [raw])] } := by
  have hp2 : (H.pat_det / 2 + if raw = H.prev_raw then 128 else 0) = 126 := by
    simpa using hp
  simp [hdlc_rec_bit, hp2, hlen]

/-- Processing the NRZI-encoded closing flag from any invariant state:
the seven leading bits are assembled without triggering flag, abort or
de-stuffing, the final bit lands the detector exactly on 0x7E, and the
raw-bit buffer accumulated so far (which excludes the flag after
chopping) is handed off as the one new candidate. -/
theorem endflag_run (H : HdlcState) (s j : Nat)
    (hpat : patInv H.pat_det s) (holen : H.olen = (j : Int)) (hj : j < 8)
    (hlen : MIN_FRAME_LEN * 8 ≤ H.rrbb.length) :
    ∃ oacc2,
      hdlc_run H (nrziEnc H.prev_raw flagBits) =
        { prev_raw := H.prev_raw, pat_det := 0x7e, oacc := oacc2, olen := 0,
          frame_buf := [], rrbb := [H.prev_raw],
          candidates := H.candidates ++ [H.rrbb] } := by
  have hp256 : H.pat_det < 256 := hpat.1
  have hs4 : s ≤ 4 := hpat.2.1
  have hstream : nrziEnc H.prev_raw flagBits =
      [!H.prev_raw, !H.prev_raw, !H.prev_raw, !H.prev_raw,
       !H.prev_raw, !H.prev_raw, !H.prev_raw, H.prev_raw] := by
    cases H.prev_raw <;> rfl
  have hbeqA : ((!H.prev_raw) == H.prev_raw) = false := by
    cases H.prev_raw <;> rfl
  have hbeqB : ((!H.prev_raw) == (!H.prev_raw)) = true := by simp
  have hbeqC : (H.prev_raw == (!H.prev_raw)) = false := by
    cases H.prev_raw <;> rfl
  -- detector safety chain along the flag bits 0,1,1,1,1,1,1,0
  obtain ⟨hsafe1, hpat1⟩ := patInv_step_zero H.pat_det hp256 s hs4 hpat
  obtain ⟨hsafe2, hpat2⟩ := patInv_step_one _ hpat1.1 0 (by omega) hpat1
  obtain ⟨hsafe3, hpat3⟩ := patInv_step_one _ hpat2.1 1 (by omega) hpat2
  obtain ⟨hsafe4, hpat4⟩ := patInv_step_one _ hpat3.1 2 (by omega) hpat3
  obtain ⟨hsafe5, hpat5⟩ := patInv_step_one _ hpat4.1 3 (by omega) hpat4
  obtain ⟨hsafe6, hsafe7, hflagp⟩ := patInv_flag_tail _ hpat5.1 hpat5
  -- step 1: the flag's leading zero bit
  obtain ⟨fb1, hstep1⟩ := hdlc_rec_bit_assembly H (!H.prev_raw) j holen hj
    (by rw [hbeqA]; simpa using hsafe1)
  set H1 : HdlcState := hdlc_rec_bit H (!H.prev_raw) with hH1
  have hpr1 : H1.prev_raw = !H.prev_raw := by rw [hstep1]
  have hpd1 : H1.pat_det = H.pat_det / 2 := by rw [hstep1]; simp [hbeqA]
  have holen1 : H1.olen = (((j + 1) % 8 : Nat) : Int) := by rw [hstep1]
  have hrrbb1 : H1.rrbb = H.rrbb ++ [!H.prev_raw] := by rw [hstep1]
  have hcand1 : H1.candidates = H.candidates := by rw [hstep1]
  -- step 2: first one bit
  obtain ⟨fb2, hstep2⟩ := hdlc_rec_bit_assembly H1 (!H.prev_raw) ((j + 1) % 8)
    holen1 (Nat.mod_lt _ (by omega))
    (by rw [hpr1, hbeqB, hpd1]; simpa using hsafe2)
  set H2 : HdlcState := hdlc_rec_bit H1 (!H.prev_raw) with hH2
  have hpr2 : H2.prev_raw = !H.prev_raw := by rw [hstep2]
  have hpd2 : H2.pat_det = H.pat_det / 2 / 2 + 128 := by
    rw [hstep2]; simp [hpr1, hbeqB, hpd1]
  have holen2 : H2.olen = (((j + 1) % 8 + 1) % 8 : Nat) := by rw [hstep2]
  have hrrbb2 : H2.rrbb = H.rrbb ++ [!H.prev_raw, !H.prev_raw] := by
    rw [hstep2]
    show H1.rrbb ++ [!H.prev_raw] = _
    rw [hrrbb1, List.append_assoc]; rfl
  have hcand2 : H2.candidates = H.candidates := by rw [hstep2]; exact hcand1
  -- step 3: second one bit
  obtain ⟨fb3, hstep3⟩ := hdlc_rec_bit_assembly H2 (!H.prev_raw) _
    holen2 (Nat.mod_lt _ (by omega))
    (by rw [hpr2, hbeqB, hpd2]; simpa using hsafe3)
  set H3 : HdlcState := hdlc_rec_bit H2 (!H.prev_raw) with hH3
  have hpr3 : H3.prev_raw = !H.prev_raw := by rw [hstep3]
  have hpd3 : H3.pat_det = (H.pat_det / 2 / 2 + 128) / 2 + 128 := by
    rw [hstep3]; simp [hpr2, hbeqB, hpd2]
  have holen3 : H3.olen = ((((j + 1) % 8 + 1) % 8 + 1) % 8 : Nat) := by rw [hstep3]
  have hrrbb3 : H3.rrbb = H.rrbb ++ [!H.prev_raw, !H.prev_raw, !H.prev_raw] := by
    rw [hstep3]
    show H2.rrbb ++ [!H.prev_raw] = _
    rw [hrrbb2, List.append_assoc]; rfl
  have hcand3 : H3.candidates = H.candidates := by rw [hstep3]; exact hcand2
  -- step 4: third one bit
  obtain ⟨fb4, hstep4⟩ := hdlc_rec_bit_assembly H3 (!H.prev_raw) _
    holen3 (Nat.mod_lt _ (by omega))
    (by rw [hpr3, hbeqB, hpd3]; simpa using hsafe4)
  set H4 : HdlcState := hdlc_rec_bit H3 (!H.prev_raw) with hH4
  have hpr4 : H4.prev_raw = !H.prev_raw := by rw [hstep4]
  have hpd4 : H4.pat_det = ((H.pat_det / 2 / 2 + 128) / 2 + 128) / 2 + 128 := by
    rw [hstep4]; simp [hpr3, hbeqB, hpd3]
  have holen4 : H4.olen = (((((j + 1) % 8 + 1) % 8 + 1) % 8 + 1) % 8 : Nat) := by
    rw [hstep4]
  have hrrbb4 : H4.rrbb =
      H.rrbb ++ [!H.prev_raw, !H.prev_raw, !H.prev_raw, !H.prev_raw] := by
    rw [hstep4]
    show H3.rrbb ++ [!H.prev_raw] = _
    rw [hrrbb3, List.append_assoc]; rfl
  have hcand4 : H4.candidates = H.candidates := by rw [hstep4]; exact hcand3
  -- step 5: fourth one bit
  obtain ⟨fb5, hstep5⟩ := hdlc_rec_bit_assembly H4 (!H.prev_raw) _
    holen4 (Nat.mod_lt _ (by omega))
    (by rw [hpr4, hbeqB, hpd4]; simpa using hsafe5)
  set H5 : HdlcState := hdlc_rec_bit H4 (!H.prev_raw) with hH5
  have hpr5 : H5.prev_raw = !H.prev_raw := by rw [hstep5]
  have hpd5 : H5.pat_det =
      (((H.pat_det / 2 / 2 + 128) / 2 + 128) / 2 + 128) / 2 + 128 := by
    rw [hstep5]; simp [hpr4, hbeqB, hpd4]
  have holen5 : H5.olen =
      ((((((j + 1) % 8 + 1) % 8 + 1) % 8 + 1) % 8 + 1) % 8 : Nat) := by rw [hstep5]
  have hrrbb5 : H5.rrbb = H.rrbb ++
      [!H.prev_raw, !H.prev_raw, !H.prev_raw, !H.prev_raw, !H.prev_raw] := by
    rw [hstep5]
    show H4.rrbb ++ [!H.prev_raw] = _
    rw [hrrbb4, List.append_assoc]; rfl
  have hcand5 : H5.candidates = H.candidates := by rw [hstep5]; exact hcand4
  -- step 6: fifth one bit
  obtain ⟨fb6, hstep6⟩ := hdlc_rec_bit_assembly H5 (!H.prev_raw) _
    holen5 (Nat.mod_lt _ (by omega))
    (by rw [hpr5, hbeqB, hpd5]; simpa using hsafe6)
  set H6 : HdlcState := hdlc_rec_bit H5 (!H.prev_raw) with hH6
  have hpr6 : H6.prev_raw = !H.prev_raw := by rw [hstep6]
  have hpd6 : H6.pat_det =
      ((((H.pat_det / 2 / 2 + 128) / 2 + 128) / 2 + 128) / 2 + 128) / 2 + 128 := by
    rw [hstep6]; simp [hpr5, hbeqB, hpd5]
  have holen6 : H6.olen =
      (((((((j + 1) % 8 + 1) % 8 + 1) % 8 + 1) % 8 + 1) % 8 + 1) % 8 : Nat) := by
    rw [hstep6]
  have hrrbb6 : H6.rrbb = H.rrbb ++
      [!H.prev_raw, !H.prev_raw, !H.prev_raw, !H.prev_raw, !H.prev_raw,
       !H.prev_raw] := by
    rw [hstep6]
    show H5.rrbb ++ [!H.prev_raw] = _
    rw [hrrbb5, List.append_assoc]; rfl
  have hcand6 : H6.candidates = H.candidates := by rw [hstep6]; exact hcand5
  -- step 7: sixth one bit
  obtain ⟨fb7, hstep7⟩ := hdlc_rec_bit_assembly H6 (!H.prev_raw) _
    holen6 (Nat.mod_lt _ (by omega))
    (by rw [hpr6, hbeqB, hpd6]; simpa using hsafe7)
  set H7 : HdlcState := hdlc_rec_bit H6 (!H.prev_raw) with hH7
  have hpr7 : H7.prev_raw = !H.prev_raw := by rw [hstep7]
  have hpd7 : H7.pat_det =
      (((((H.pat_det / 2 / 2 + 128) / 2 + 128) / 2 + 128) / 2 + 128) / 2 + 128)
        / 2 + 128 := by
    rw [hstep7]; simp [hpr6, hbeqB, hpd6]
  have hrrbb7 : H7.rrbb = H.rrbb ++
      [!H.prev_raw, !H.prev_raw, !H.prev_raw, !H.prev_raw, !H.prev_raw,
       !H.prev_raw, !H.prev_raw] := by
    rw [hstep7]
    show H6.rrbb ++ [!H.prev_raw] = _
    rw [hrrbb6, List.append_assoc]; rfl
  have hcand7 : H7.candidates = H.candidates := by rw [hstep7]; exact hcand6
  -- step 8: the flag's final zero bit completes 0x7E
  have hchop : rrbb_chop8 (H7.rrbb ++ [H.prev_raw]) = H.rrbb := by
    rw [hrrbb7, List.append_assoc]
    show rrbb_chop8 (H.rrbb ++
      [!H.prev_raw, !H.prev_raw, !H.prev_raw, !H.prev_raw, !H.prev_raw,
       !H.prev_raw, !H.prev_raw, H.prev_raw]) = H.rrbb
    rw [rrbb_chop8, List.length_append]
    have h8 : H.rrbb.length + 8 - 8 = H.rrbb.length := by omega
    rw [show ([!H.prev_raw, !H.prev_raw, !H.prev_raw, !H.prev_raw, !H.prev_raw,
      !H.prev_raw, !H.prev_raw, H.prev_raw] : List Bool).length = 8 from rfl, h8,
      List.take_left]
  have hstep8 := hdlc_rec_bit_flag H7 H.prev_raw
    (by rw [hpr7, hbeqC, hpd7]; simpa using hflagp)
    (by rw [hchop]; exact hlen)
  refine ⟨H7.oacc, ?_⟩
  show List.foldl hdlc_rec_bit H (nrziEnc H.prev_raw flagBits) = _
  rw [hstream, List.foldl_cons, ← hH1, List.foldl_cons, ← hH2, List.foldl_cons,
    ← hH3, List.foldl_cons, ← hH4, List.foldl_cons, ← hH5, List.foldl_cons,
    ← hH6, List.foldl_cons, ← hH7, List.foldl_cons, hstep8, hchop, hcand7]
  rfl

/-! ### Dispatcher decode lemmas and claim C1 -/

theorem hdlc_run_append (H : HdlcState) (xs ys : List Bool) :
    hdlc_run H (xs ++ ys) = hdlc_run (hdlc_run H xs) ys :=
  List.foldl_append ..

/-- NRZI decoding inverts NRZI encoding from the same line state. -/
theorem nrziDecode_nrziEnc (bs : List Bool) (line : Bool) :
    nrziDecode line (nrziEnc line bs) = bs := by
  induction bs generalizing line with
  | nil => rfl
  | cons b t ih =>
      cases b with
      | true =>
          rw [nrziEnc_cons_true]
          show (line == line) :: nrziDecode line (nrziEnc line t) = _
          simp [ih]
      | false =>
          rw [nrziEnc_cons_false]
          show ((!line) == line) :: nrziDecode (!line) (nrziEnc (!line) t) = _
          have hbeq : ((!line) == line) = false := by cases line <;> rfl
          simp [hbeq, ih]

/-- Counter-based de-stuffing inverts bit stuffing (entry counters equal
and at most 4). -/
theorem destuffDec_stuffEnc (bs : List Bool) (s : Nat) (hs : s ≤ 4) :
    destuffDec s (stuffEnc s bs) = bs := by
  induction bs generalizing s with
  | nil => rfl
  | cons b t ih =>
      cases b with
      | false =>
          have h5 : ¬ s ≥ 5 := by omega
          simp [stuffEnc, destuffDec, h5, ih 0 (by omega)]
      | true =>
          by_cases h : s = 4
          · subst h
            simp [stuffEnc, destuffDec, ih 0 (by omega)]
          · simp [stuffEnc, destuffDec, h, ih (s + 1) (by omega)]

/-- Recombination of the eight LSB-first bits of an octet below 256. -/
theorem testBits_sum : ∀ x < 256,
    (if x.testBit 0 then 1 else 0) + (if x.testBit 1 then 2 else 0) +
    (if x.testBit 2 then 4 else 0) + (if x.testBit 3 then 8 else 0) +
    (if x.testBit 4 then 16 else 0) + (if x.testBit 5 then 32 else 0) +
    (if x.testBit 6 then 64 else 0) + (if x.testBit 7 then 128 else 0) = x := by
  decide

/-- Octet grouping inverts LSB-first bit flattening for octet lists. -/
theorem bitsToBytes_bytesBits (l : List Nat) (hl : ∀ x ∈ l, x < 256) :
    bitsToBytes (bytesBits l) = l := by
  induction l with
  | nil => rfl
  | cons x t ih =>
      have hx : x < 256 := hl x (by simp)
      rw [bytesBits_cons]
      rw [show byteBits x ++ bytesBits t =
          x.testBit 0 :: x.testBit 1 :: x.testBit 2 :: x.testBit 3 ::
          x.testBit 4 :: x.testBit 5 :: x.testBit 6 :: x.testBit 7 ::
          bytesBits t from rfl]
      rw [bitsToBytes, testBits_sum x hx, ih (fun y hy => hl y (by simp [hy]))]

/-- The FCS octets are genuine octets. -/
theorem fcsBytes_lt (fbuf : List Nat) : ∀ x ∈ fcsBytes fbuf, x < 256 := by
  intro x hx
  have h1 : fcs_calc fbuf &&& 0xff < 256 := Nat.lt_succ_of_le Nat.and_le_right
  have h2 : (fcs_calc fbuf >>> 8) &&& 0xff < 256 :=
    Nat.lt_succ_of_le Nat.and_le_right
  rcases List.mem_cons.mp hx with h | hx2
  · rw [h]; exact h1
  · rcases List.mem_cons.mp hx2 with h | h
    · rw [h]; exact h2
    · exact absurd h (List.not_mem_nil x)

/-- The dispatcher model validates and strips a well-formed candidate:
seed bit, NRZI-encoded stuffed frame bits, with FCS octets computed over
the payload. -/
theorem hdlc_rec2_block_good (fbuf : List Nat)
    (hmin : AX25_MIN_PACKET_LEN ≤ fbuf.length)
    (hbytes : ∀ x ∈ fbuf, x < 256) :
    hdlc_rec2_block (false ::
        nrziEnc false (stuffEnc 0 (bytesBits (fbuf ++ fcsBytes fbuf)))) =
      some fbuf := by
  have hframebytes : ∀ x ∈ fbuf ++ fcsBytes fbuf, x < 256 := by
    intro x hx
    rcases List.mem_append.mp hx with h | h
    · exact hbytes x h
    · exact fcsBytes_lt fbuf x h
  rw [hdlc_rec2_block, nrziDecode_nrziEnc, destuffDec_stuffEnc _ 0 (by omega),
    bitsToBytes_bytesBits _ hframebytes]
  have hlen2 : (fcsBytes fbuf).length = 2 := rfl
  have hlen : (fbuf ++ fcsBytes fbuf).length = fbuf.length + 2 := by
    simp [hlen2]
  have hsub : (fbuf ++ fcsBytes fbuf).length - 2 = fbuf.length := by omega
  have htake : (fbuf ++ fcsBytes fbuf).take ((fbuf ++ fcsBytes fbuf).length - 2) =
      fbuf := by
    rw [hsub, List.take_left]
  have hdrop : (fbuf ++ fcsBytes fbuf).drop ((fbuf ++ fcsBytes fbuf).length - 2) =
      fcsBytes fbuf := by
    rw [hsub, List.drop_left]
  rw [htake, hdrop, if_pos ⟨by rw [hlen]; simp [MIN_FRAME_LEN, AX25_MIN_PACKET_LEN] at hmin ⊢; omega, rfl⟩]

/-- C1: every packet of valid length, serialized by the AX.25 serializer
(start flag, bit-stuffed NRZI-encoded payload, correct little-endian
CRC-16, end flag, line state 0) and fed bit-by-bit into the HDLC
deframer on one freshly initialized (channel, sub-channel, slicer)
state, yields exactly one received-frame event carrying the original
payload: serialize-then-deframe is the identity modulo NRZI and
stuffing. -/
theorem c1_round_trip (fbuf : List Nat)
    (hmin : AX25_MIN_PACKET_LEN ≤ fbuf.length)
    (hmax : fbuf.length ≤ AX25_MAX_PACKET_LEN)
    (hbytes : ∀ x ∈ fbuf, x < 256) :
    frameEvents (hdlc_run hdlc_rec_init_state
      (ax25_only_hdlc_send_frame false fbuf false).emitted) = [fbuf] := by
  have hemit : (ax25_only_hdlc_send_frame false fbuf false).emitted =
      nrziEnc false (flagBits ++
        stuffEnc 0 (bytesBits (fbuf ++ fcsBytes fbuf)) ++ flagBits) := by
    rw [send_frame_emitted]
  rw [hemit, List.append_assoc, nrziEnc_append,
    show lineAfter false flagBits = false from rfl, nrziEnc_append,
    ← List.append_assoc, hdlc_run_append, hdlc_run_append, startflag_run]
  -- the data section
  set Hs : HdlcState :=
    { prev_raw := false, pat_det := 0x7e, oacc := 0, olen := 0,
      frame_buf := [], rrbb := [false], candidates := [] } with hHs
  have hspr : Hs.prev_raw = false := by rw [hHs]
  have hsrrbb : Hs.rrbb = [false] := by rw [hHs]
  have hscand : Hs.candidates = [] := by rw [hHs]
  have hstart_pat : patInv Hs.pat_det 0 := by rw [hHs]; decide
  have hsolen : Hs.olen = ((0 : Nat) : Int) := by rw [hHs]; rfl
  obtain ⟨p2, oacc2, fb2, hrun, hpat2⟩ :=
    data_bits_run (bytesBits (fbuf ++ fcsBytes fbuf)) 0 0 Hs
      hstart_pat hsolen (by omega)
  rw [hspr] at hrun
  rw [hsrrbb, hscand] at hrun
  rw [hrun]
  have hmod : ((0 + (bytesBits (fbuf ++ fcsBytes fbuf)).length) % 8) = 0 := by
    rw [length_bytesBits]
    omega
  -- the closing flag attaches the accumulated raw-bit buffer
  obtain ⟨oacc3, hrun3⟩ :=
    endflag_run
      { prev_raw := lineAfter false (stuffEnc 0 (bytesBits (fbuf ++ fcsBytes fbuf))),
        pat_det := p2, oacc := oacc2,
        olen := (((0 + (bytesBits (fbuf ++ fcsBytes fbuf)).length) % 8 : Nat) : Int),
        frame_buf := fb2,
        rrbb := [false] ++ nrziEnc false (stuffEnc 0 (bytesBits (fbuf ++ fcsBytes fbuf))),
        candidates := [] }
      (stuffAfter 0 (bytesBits (fbuf ++ fcsBytes fbuf))) 0
      hpat2
      (by
        show (((0 + (bytesBits (fbuf ++ fcsBytes fbuf)).length) % 8 : Nat) : Int) =
          ((0 : Nat) : Int)
        rw [hmod])
      (by omega)
      (by
        show MIN_FRAME_LEN * 8 ≤ (([false] : List Bool) ++
          nrziEnc false (stuffEnc 0 (bytesBits (fbuf ++ fcsBytes fbuf)))).length
        rw [List.length_append, length_nrziEnc]
        have h1 := length_stuffEnc_ge 0 (bytesBits (fbuf ++ fcsBytes fbuf))
        rw [length_bytesBits] at h1
        have h2 : (fbuf ++ fcsBytes fbuf).length = fbuf.length + 2 := by
          simp [fcsBytes]
        simp only [MIN_FRAME_LEN, AX25_MIN_PACKET_LEN] at *
        omega)
  dsimp only at hrun3
  rw [hrun3]
  simp only [frameEvents, List.nil_append, List.filterMap_cons,
    show (([false] : List Bool) ++
      nrziEnc false (stuffEnc 0 (bytesBits (fbuf ++ fcsBytes fbuf)))) =
      false :: nrziEnc false (stuffEnc 0 (bytesBits (fbuf ++ fcsBytes fbuf)))
      from rfl,
    hdlc_rec2_block_good fbuf hmin hbytes, List.filterMap_nil]

/-- Witness for C1 at a concrete 15-octet payload. -/
theorem c1_round_trip_witness :
    frameEvents (hdlc_run hdlc_rec_init_state
      (ax25_only_hdlc_send_frame false (List.replicate 15 0) false).emitted) =
      [List.replicate 15 0] :=
  c1_round_trip (List.replicate 15 0) (by decide) (by decide)
    (by intro x hx; rw [List.eq_of_mem_replicate hx]; omega)

/-! ### Claims C3, C8, C9: deframer step properties -/

/-- A concrete valid frame bit stream with eight consecutive one data
bits (the raw level held constant for eight bit times) injected at bit
offset 40, mid-frame. -/
def c3_corrupted_bits : List Bool :=
  let base := (ax25_only_hdlc_send_frame false (List.replicate 15 0) false).emitted
  base.take 40 ++ List.replicate 8 (base.getD 39 false) ++ base.drop 40

/-- C3: whenever the updated 8-bit pattern detector equals 0xFE (seven
consecutive one data bits), the decoder sets `olen` to -1, sets
`frame_len` to 0 (the live frame buffer empties), clears the raw-bit
buffer and hands off no candidate; and injecting eight consecutive one
data bits mid-frame into a concrete valid frame stream produces no
frame event at all. -/
theorem c3_abort_detection :
    (∀ (H : HdlcState) (raw : Bool),
      H.pat_det / 2 + (if raw == H.prev_raw then 128 else 0) = 0xfe →
      hdlc_rec_bit H raw =
        { prev_raw := raw, pat_det := 0xfe, oacc := H.oacc, olen := -1,
          frame_buf := [], rrbb := [], candidates := H.candidates }) ∧
    frameEvents (hdlc_run hdlc_rec_init_state c3_corrupted_bits) = [] := by
  constructor
  · intro H raw hp
    have hp2 : (H.pat_det / 2 + if raw = H.prev_raw then 128 else 0) = 254 := by
      simpa using hp
    simp [hdlc_rec_bit, hp2]
  · decide

/-- Witness for the conditional part of C3: an abort step at a concrete
state (detector history 11111100, one more one bit arriving). -/
theorem c3_abort_detection_witness :
    hdlc_rec_bit
        { prev_raw := false, pat_det := 252, oacc := 0, olen := 0,
          frame_buf := [], rrbb := [true], candidates := [] } false =
      { prev_raw := false, pat_det := 254, oacc := 0, olen := -1,
        frame_buf := [], rrbb := [], candidates := [] } :=
  c3_abort_detection.1
    { prev_raw := false, pat_det := 252, oacc := 0, olen := 0,
      frame_buf := [], rrbb := [true], candidates := [] } false (by decide)

/-- The inductive state invariant of the deframer: `olen` is -1 or in
[0, 7] after a complete call, and the frame buffer never exceeds
MAX_FRAME_LEN octets. -/
def hdlcInv (H : HdlcState) : Prop :=
  (H.olen = -1 ∨ (0 ≤ H.olen ∧ H.olen ≤ 7)) ∧
    H.frame_buf.length ≤ MAX_FRAME_LEN ∧ H.pat_det < 256

instance (H : HdlcState) : Decidable (hdlcInv H) := by
  unfold hdlcInv; infer_instance

theorem hdlc_rec_bit_inv (H : HdlcState) (raw : Bool) (h : hdlcInv H) :
    hdlcInv (hdlc_rec_bit H raw) := by
  obtain ⟨holen, hlen, hpat⟩ := h
  have hpat2 : H.pat_det / 2 + (if raw == H.prev_raw then 128 else 0) < 256 := by
    by_cases hb : (raw == H.prev_raw) = true <;> simp [hb] <;> omega
  unfold hdlcInv
  simp only [hdlc_rec_bit]
  split_ifs <;> simp_all <;> omega

theorem hdlc_run_inv (bits : List Bool) (H : HdlcState) (h : hdlcInv H) :
    hdlcInv (hdlc_run H bits) := by
  induction bits generalizing H with
  | nil => exact h
  | cons b t ih => exact ih _ (hdlc_rec_bit_inv H b h)

/-- C8: after any sequence of `hdlc_rec_bit` calls on a state produced
by `hdlc_rec_init`, `olen` is either -1 or in [0, 8], and `frame_len`
is in [0, MAX_FRAME_LEN] with MAX_FRAME_LEN = AX25_MAX_PACKET_LEN + 2;
octets beyond the limit are never appended. -/
theorem c8_state_invariants (bits : List Bool) :
    ((hdlc_run hdlc_rec_init_state bits).olen = -1 ∨
      (0 ≤ (hdlc_run hdlc_rec_init_state bits).olen ∧
        (hdlc_run hdlc_rec_init_state bits).olen ≤ 8)) ∧
    (hdlc_run hdlc_rec_init_state bits).frame_len ≤ MAX_FRAME_LEN ∧
    MAX_FRAME_LEN = AX25_MAX_PACKET_LEN + 2 := by
  have h := hdlc_run_inv bits hdlc_rec_init_state (by decide)
  obtain ⟨holen, hlen, _⟩ := h
  refine ⟨?_, hlen, rfl⟩
  rcases holen with h | ⟨h1, h2⟩
  · exact Or.inl h
  · exact Or.inr ⟨h1, by omega⟩

/-- Detector values stay below 256 along any run from the initial
state. -/
theorem hdlc_run_pat_det_lt (bits : List Bool) :
    (hdlc_run hdlc_rec_init_state bits).pat_det < 256 :=
  (hdlc_run_inv bits hdlc_rec_init_state (by decide)).2.2

/-- A one data bit shifted into an 8-bit detector never produces the
de-stuffing pattern. -/
theorem one_bit_no_destuff : ∀ p < 256, (p / 2 + 128) &&& 0xfc ≠ 0x7c := by
  decide

/-- C9: when the updated pattern detector matches five one bits followed
by a zero (mask 0xFC against 0x7C, excluding the flag value itself,
which the flag branch consumes first), the current data bit is a zero
and it is dropped: the octet accumulator, `olen`, the frame buffer and
the candidate list are unchanged; only `prev_raw`, the detector and the
raw-bit buffer advance. -/
theorem c9_destuffing (H : HdlcState) (raw : Bool) (hp : H.pat_det < 256)
    (hmask : (H.pat_det / 2 + (if raw == H.prev_raw then 128 else 0)) &&& 0xfc = 0x7c)
    (hflag : (H.pat_det / 2 + (if raw == H.prev_raw then 128 else 0)) ≠ 0x7e) :
    hdlc_rec_bit H raw =
      { H with
        prev_raw := raw,
        pat_det := H.pat_det / 2 + (if raw == H.prev_raw then 128 else 0),
        rrbb := H.rrbb ++ [raw] } ∧
    (raw == H.prev_raw) = false := by
  refine ⟨hdlc_rec_bit_destuff H raw hmask hflag, ?_⟩
  by_cases hb : (raw == H.prev_raw) = true
  · rw [hb] at hmask
    simp only [if_true] at hmask
    exact absurd hmask (one_bit_no_destuff H.pat_det hp)
  · simpa using hb

/-- Witness for C9: a concrete de-stuffing step (detector history
11111000, a zero data bit arriving). -/
theorem c9_destuffing_witness :
    hdlc_rec_bit
        { prev_raw := false, pat_det := 0xf8, oacc := 3, olen := 2,
          frame_buf := [7], rrbb := [true], candidates := [] } true =
      { prev_raw := true, pat_det := 0x7c, oacc := 3, olen := 2,
        frame_buf := [7], rrbb := [true, true], candidates := [] } ∧
    ((true : Bool) == (false : Bool)) = false := by
  have h := c9_destuffing
    { prev_raw := false, pat_det := 0xf8, oacc := 3, olen := 2,
      frame_buf := [7], rrbb := [true], candidates := [] } true
    (by decide) (by decide) (by decide)
  exact ⟨by rw [h.1]; decide, h.2⟩

/-! ### Claim C7: the DCD matrix (hdlc_rec.c) -/

/-- hdlc_rec.c `dcd_change`, matrix update for one channel row: set or
clear bit `slice` of slot `subchan` (the C clears with
`&= ~(1 << slice)`; on Nat this is the conditional exclusive-or). -/
def dcd_change_row (row : Nat → Nat) (subchan slice : Nat) (state : Bool) :
    Nat → Nat :=
  fun sc =>
    if sc = subchan then
      if state then row sc ||| (1 <<< slice)
      else if (row sc).testBit slice then row sc ^^^ (1 <<< slice) else row sc
    else row sc

/-- hdlc_rec.c `hdlc_rec_data_detect_any` for one channel: scan slots
`0 .. num_subchan-1` for a nonzero slicer mask, then the
transmit-inhibit input (`get_input(ICTYPE_TXINH, chan) == 1`). -/
def hdlc_rec_data_detect_any (row : Nat → Nat) (num_subchan : Nat)
    (txinh : Bool) : Bool :=
  ((List.range num_subchan).any fun sc => row sc != 0) || txinh

/-- C7 counterexample: with one sub-channel configured, setting the DTMF
slot at index MAX_SUBCHANS through `dcd_change` leaves the channel-level
DCD at 0, although the claim requires it to be 1 (the scan loop stops at
`num_subchan`, so the extra DTMF slot is never consulted). -/
theorem c7_dcd_dtmf_counterexample :
    hdlc_rec_data_detect_any
        (dcd_change_row (fun _ => 0) MAX_SUBCHANS 0 true) 1 false = false ∧
    dcd_change_row (fun _ => 0) MAX_SUBCHANS 0 true MAX_SUBCHANS ≠ 0 ∧
    ¬ (hdlc_rec_data_detect_any
        (dcd_change_row (fun _ => 0) MAX_SUBCHANS 0 true) 1 false = true ↔
      ((∃ sc ≤ MAX_SUBCHANS,
          dcd_change_row (fun _ => 0) MAX_SUBCHANS 0 true sc ≠ 0) ∨
        False)) := by
  refine ⟨by decide, by decide, ?_⟩
  intro hiff
  have h2 : dcd_change_row (fun _ => 0) MAX_SUBCHANS 0 true MAX_SUBCHANS ≠ 0 := by
    decide
  have := hiff.mpr (Or.inl ⟨MAX_SUBCHANS, le_refl _, h2⟩)
  exact absurd this (by decide)

/-- C7 amended: the channel-level DCD predicate is 1 iff some
(sub-channel, slicer) bit with sub-channel index strictly below
`num_subchan` is set, or the transmit-inhibit input is asserted — the
DTMF slot at index MAX_SUBCHANS and slots at or beyond `num_subchan`
are not consulted; and `dcd_change` sets or clears exactly the
(sub-channel, slicer) bit it is given. -/
theorem c7_dcd_aggregation (row : Nat → Nat) (num_subchan : Nat)
    (txinh : Bool) (subchan slice : Nat) (state : Bool) :
    (hdlc_rec_data_detect_any row num_subchan txinh = true ↔
      ((∃ sc < num_subchan, row sc ≠ 0) ∨ txinh = true)) ∧
    (∀ sc, sc ≠ subchan → dcd_change_row row subchan slice state sc = row sc) ∧
    (∀ i, (dcd_change_row row subchan slice state subchan).testBit i =
      if i = slice then state else (row subchan).testBit i) := by
  refine ⟨?_, ?_, ?_⟩
  · simp [hdlc_rec_data_detect_any, List.any_eq_true, List.mem_range, bne_iff_ne]
  · intro sc hsc
    simp [dcd_change_row, hsc]
  · intro i
    simp only [dcd_change_row, if_pos rfl]
    rw [Nat.one_shiftLeft]
    by_cases hi : i = slice
    · subst hi
      cases state with
      | true => simp [Nat.testBit_or, Nat.testBit_two_pow_self]
      | false =>
          by_cases hbit : (row subchan).testBit i
          · simp [hbit, Nat.testBit_xor, Nat.testBit_two_pow_self]
          · simp [hbit]
    · cases state with
      | true =>
          simp [Nat.testBit_or, Nat.testBit_two_pow_of_ne (Ne.symm hi), hi]
      | false =>
          by_cases hbit : (row subchan).testBit slice
          · simp [hbit, Nat.testBit_xor,
              Nat.testBit_two_pow_of_ne (Ne.symm hi), hi]
          · simp [hbit, hi]

/-- Witness for the amended C7 at a concrete row, showing an asserted
bit below `num_subchan` driving DCD on. -/
theorem c7_dcd_aggregation_witness :
    hdlc_rec_data_detect_any (fun sc => if sc = 0 then 2 else 0) 1 false = true :=
  (c7_dcd_aggregation (fun sc => if sc = 0 then 2 else 0) 1 false 0 1 true).1.mpr
    (Or.inl ⟨0, by omega, by decide⟩)

/-! ### Claim C10: per-channel transmit timing setters (xmit.c) -/

/-- The five per-channel timing arrays of xmit.c
(`xmit_txdelay`, `xmit_persist`, `xmit_slottime`, `xmit_txtail`,
`xmit_fulldup`), indexed by C `int` channel numbers. -/
structure XmitParams where
  txdelay : Int → Int
  persist : Int → Int
  slottime : Int → Int
  txtail : Int → Int
  fulldup : Int → Int

/-- xmit.c `xmit_set_txdelay`: guarded array store. -/
def xmit_set_txdelay (P : XmitParams) (channel value : Int) : XmitParams :=
  if 0 ≤ channel ∧ channel < (MAX_CHANS : Int) then
    { P with txdelay := Function.update P.txdelay channel value }
  else P

/-- xmit.c `xmit_set_persist`: guarded array store. -/
def xmit_set_persist (P : XmitParams) (channel value : Int) : XmitParams :=
  if 0 ≤ channel ∧ channel < (MAX_CHANS : Int) then
    { P with persist := Function.update P.persist channel value }
  else P

/-- xmit.c `xmit_set_slottime`: guarded array store. -/
def xmit_set_slottime (P : XmitParams) (channel value : Int) : XmitParams :=
  if 0 ≤ channel ∧ channel < (MAX_CHANS : Int) then
    { P with slottime := Function.update P.slottime channel value }
  else P

/-- xmit.c `xmit_set_txtail`: guarded array store. -/
def xmit_set_txtail (P : XmitParams) (channel value : Int) : XmitParams :=
  if 0 ≤ channel ∧ channel < (MAX_CHANS : Int) then
    { P with txtail := Function.update P.txtail channel value }
  else P

/-- xmit.c `xmit_set_fulldup`: guarded array store. -/
def xmit_set_fulldup (P : XmitParams) (channel value : Int) : XmitParams :=
  if 0 ≤ channel ∧ channel < (MAX_CHANS : Int) then
    { P with fulldup := Function.update P.fulldup channel value }
  else P

/-- C10: each timing setter is a no-op outside [0, MAX_CHANS); inside,
it stores the given value (unchecked) for exactly that channel and
parameter, leaving every other channel and every other parameter
untouched. -/
theorem c10_timing_setters (P : XmitParams) (channel value : Int) :
    (¬ (0 ≤ channel ∧ channel < (MAX_CHANS : Int)) →
      xmit_set_txdelay P channel value = P ∧
      xmit_set_persist P channel value = P ∧
      xmit_set_slottime P channel value = P ∧
      xmit_set_txtail P channel value = P ∧
      xmit_set_fulldup P channel value = P) ∧
    ((0 ≤ channel ∧ channel < (MAX_CHANS : Int)) →
      ((xmit_set_txdelay P channel value).txdelay channel = value ∧
        (∀ c, c ≠ channel →
          (xmit_set_txdelay P channel value).txdelay c = P.txdelay c) ∧
        (xmit_set_txdelay P channel value).persist = P.persist ∧
        (xmit_set_txdelay P channel value).slottime = P.slottime ∧
        (xmit_set_txdelay P channel value).txtail = P.txtail ∧
        (xmit_set_txdelay P channel value).fulldup = P.fulldup) ∧
      ((xmit_set_persist P channel value).persist channel = value ∧
        (∀ c, c ≠ channel →
          (xmit_set_persist P channel value).persist c = P.persist c) ∧
        (xmit_set_persist P channel value).txdelay = P.txdelay ∧
        (xmit_set_persist P channel value).slottime = P.slottime ∧
        (xmit_set_persist P channel value).txtail = P.txtail ∧
        (xmit_set_persist P channel value).fulldup = P.fulldup) ∧
      ((xmit_set_slottime P channel value).slottime channel = value ∧
        (∀ c, c ≠ channel →
          (xmit_set_slottime P channel value).slottime c = P.slottime c) ∧
        (xmit_set_slottime P channel value).txdelay = P.txdelay ∧
        (xmit_set_slottime P channel value).persist = P.persist ∧
        (xmit_set_slottime P channel value).txtail = P.txtail ∧
        (xmit_set_slottime P channel value).fulldup = P.fulldup) ∧
      ((xmit_set_txtail P channel value).txtail channel = value ∧
        (∀ c, c ≠ channel →
          (xmit_set_txtail P channel value).txtail c = P.txtail c) ∧
        (xmit_set_txtail P channel value).txdelay = P.txdelay ∧
        (xmit_set_txtail P channel value).persist = P.persist ∧
        (xmit_set_txtail P channel value).slottime = P.slottime ∧
        (xmit_set_txtail P channel value).fulldup = P.fulldup) ∧
      ((xmit_set_fulldup P channel value).fulldup channel = value ∧
        (∀ c, c ≠ channel →
          (xmit_set_fulldup P channel value).fulldup c = P.fulldup c) ∧
        (xmit_set_fulldup P channel value).txdelay = P.txdelay ∧
        (xmit_set_fulldup P channel value).persist = P.persist ∧
        (xmit_set_fulldup P channel value).slottime = P.slottime ∧
        (xmit_set_fulldup P channel value).txtail = P.txtail)) := by
  constructor
  · intro h
    exact ⟨if_neg h, if_neg h, if_neg h, if_neg h, if_neg h⟩
  · intro h
    simp only [xmit_set_txdelay, xmit_set_persist, xmit_set_slottime,
      xmit_set_txtail, xmit_set_fulldup, if_pos h]
    exact ⟨⟨by simp, fun c hc => by simp [Function.update_noteq hc],
        by trivial, by trivial, by trivial, by trivial⟩,
      ⟨by simp, fun c hc => by simp [Function.update_noteq hc],
        by trivial, by trivial, by trivial, by trivial⟩,
      ⟨by simp, fun c hc => by simp [Function.update_noteq hc],
        by trivial, by trivial, by trivial, by trivial⟩,
      ⟨by simp, fun c hc => by simp [Function.update_noteq hc],
        by trivial, by trivial, by trivial, by trivial⟩,
      ⟨by simp, fun c hc => by simp [Function.update_noteq hc],
        by trivial, by trivial, by trivial, by trivial⟩⟩

/-- All-zero parameter block for the C10 witness. -/
def xmitParamsZero : XmitParams :=
  ⟨fun _ => 0, fun _ => 0, fun _ => 0, fun _ => 0, fun _ => 0⟩

/-- Witness for C10 at channel 2, value 30. -/
theorem c10_timing_setters_witness :
    (xmit_set_txdelay xmitParamsZero 2 30).txdelay 2 = 30 :=
  (((c10_timing_setters xmitParamsZero 2 30).2 (by constructor <;> decide)).1).1

/-! ### Claim C4: frame flavors and bundling (xmit.c) -/

/-- Abstraction of an AX.25 packet object with the fields that
`frame_flavor`, `ax25_is_null_frame` and `send_one_frame` consult, plus
the packed frame octets.  ax25_pad.c is absent from the source tree, so
the accessors below are modelled from the spec. -/
structure TxPacket where
  numAddr : Nat
  uiPidF0 : Bool
  numRepeaters : Nat
  firstRepeaterH : Bool
  fbuf : List Nat
  deriving DecidableEq, Repr

/-- Modelled from the spec: `ax25_is_null_frame` (ax25_pad.c absent) — a
frame carrying no addresses, used as a seize-request marker. -/
def ax25_is_null_frame (p : TxPacket) : Bool := p.numAddr == 0

/-- Modelled from the spec: `ax25_is_aprs` (ax25_pad.c absent) — "UI
frame, PID 0xF0" with at least destination and source addresses. -/
def ax25_is_aprs (p : TxPacket) : Bool := 2 ≤ p.numAddr && p.uiPidF0

/-- xmit.c `flavor_e`. -/
inductive flavor_t where
  | FLAVOR_APRS_NEW | FLAVOR_APRS_DIGI | FLAVOR_OTHER
  deriving DecidableEq, Repr

/-- xmit.c `frame_flavor`: APRS digipeat when the frame is APRS, has at
least one digipeater and the first one has been used. -/
def frame_flavor (p : TxPacket) : flavor_t :=
  if ax25_is_aprs p then
    if 1 ≤ p.numRepeaters ∧ p.firstRepeaterH = true then .FLAVOR_APRS_DIGI
    else .FLAVOR_APRS_NEW
  else .FLAVOR_OTHER

/-- xmit.c `send_one_frame`, bit accounting only: a null frame sends
nothing and returns 0; otherwise `layer2_send_frame` serializes the
packed frame over the AX.25 path (xmit_error_rate 0, FX.25 off) and the
number of emitted bits is returned. -/
def send_one_frame (line : Bool) (p : TxPacket) : Nat :=
  if ax25_is_null_frame p then 0
  else (ax25_only_hdlc_send_frame line p.fbuf false).nbits

/-- The serializer always emits at least the two flags. -/
theorem nbits_pos (line : Bool) (fbuf : List Nat) :
    0 < (ax25_only_hdlc_send_frame line fbuf false).nbits := by
  rw [send_frame_emitted]
  simp

/-- xmit.c `xmit_ax25_frames` bundling loop (lines 665-722): while fewer
than `max_bundle` frames have been sent, peek at the high-priority then
low-priority queue; an APRS-digipeated frame at the head stops the loop;
otherwise the frame is dequeued and sent, counting it when it produced
bits.  Returns the final `numframe` and the remaining queues. -/
def bundle_loop : List TxPacket → List TxPacket → Nat → Nat →
    Nat × List TxPacket × List TxPacket
  | hi, lo, numframe, max_bundle =>
    if numframe < max_bundle then
      match hi, lo with
      | [], [] => (numframe, [], [])
      | p :: hs, lo2 =>
          match frame_flavor p with
          | .FLAVOR_APRS_DIGI => (numframe, p :: hs, lo2)
          | .FLAVOR_APRS_NEW | .FLAVOR_OTHER =>
              bundle_loop hs lo2
                (numframe + if 0 < send_one_frame false p then 1 else 0) max_bundle
      | [], p :: ls =>
          match frame_flavor p with
          | .FLAVOR_APRS_DIGI => (numframe, [], p :: ls)
          | .FLAVOR_APRS_NEW | .FLAVOR_OTHER =>
              bundle_loop [] ls
                (numframe + if 0 < send_one_frame false p then 1 else 0) max_bundle
    else (numframe, hi, lo)
  termination_by hi lo _ _ => hi.length + lo.length

/-- xmit.c `xmit_ax25_frames`: PTT on, preamble, send the first frame,
bundle eligible further frames, postamble, PTT off.  Modelled by the
frame count and the remaining queues. -/
def xmit_ax25_frames (hi lo : List TxPacket) (pp : TxPacket) (max_bundle : Nat) :
    Nat × List TxPacket × List TxPacket :=
  bundle_loop hi lo (if 0 < send_one_frame false pp then 1 else 0) max_bundle

/-- xmit.c `tq_remove` over both priorities: high priority first. -/
def tq_remove2 : List TxPacket → List TxPacket →
    Option (TxPacket × List TxPacket × List TxPacket)
  | p :: hs, lo => some (p, hs, lo)
  | [], p :: ls => some (p, [], ls)
  | [], [] => none

/-- One iteration of the xmit_thread inner loop (lines 441-525): remove
the head frame; with a clear channel (`ok`), dispatch on its flavor with
bundle cap 1 for APRS digipeats and 256 otherwise; on timeout, discard
the frame with an error log line and transmit nothing.  Result: frames
transmitted, discarded frame, whether an error line was printed, and
the remaining queues. -/
def xmit_thread_iter (ok : Bool) (hi lo : List TxPacket) :
    Nat × Option TxPacket × Bool × List TxPacket × List TxPacket :=
  match tq_remove2 hi lo with
  | none => (0, none, false, hi, lo)
  | some (pp, hi2, lo2) =>
      if ok then
        match frame_flavor pp with
        | .FLAVOR_APRS_DIGI =>
            let r := xmit_ax25_frames hi2 lo2 pp 1
            (r.1, none, false, r.2.1, r.2.2)
        | .FLAVOR_APRS_NEW | .FLAVOR_OTHER =>
            let r := xmit_ax25_frames hi2 lo2 pp 256
            (r.1, none, false, r.2.1, r.2.2)
      else
        (0, some pp, true, hi2, lo2)

/-- An APRS digipeated frame involves addresses, hence is not null. -/
theorem digi_not_null (p : TxPacket)
    (h : frame_flavor p = .FLAVOR_APRS_DIGI) : ax25_is_null_frame p = false := by
  unfold frame_flavor at h
  split_ifs at h <;> simp_all [ax25_is_aprs, ax25_is_null_frame]
  omega

/-- Entering the bundling loop at or beyond the cap returns at once. -/
theorem bundle_loop_stop (hi lo : List TxPacket) (nf mb : Nat) (h : ¬ nf < mb) :
    bundle_loop hi lo nf mb = (nf, hi, lo) := by
  rw [bundle_loop.eq_def]
  dsimp only
  rw [if_neg h]

/-- An APRS-digipeated frame at the head of the high-priority queue
stops the bundling loop without being dequeued. -/
theorem bundle_loop_digi_hi (p : TxPacket) (hs lo : List TxPacket) (nf mb : Nat)
    (hfl : frame_flavor p = .FLAVOR_APRS_DIGI) :
    bundle_loop (p :: hs) lo nf mb = (nf, p :: hs, lo) := by
  rw [bundle_loop.eq_def]
  dsimp only
  by_cases h : nf < mb
  · rw [if_pos h]
    simp [hfl]
  · rw [if_neg h]

/-- An APRS-digipeated frame at the head of the low-priority queue
(high-priority empty) stops the bundling loop without being dequeued. -/
theorem bundle_loop_digi_lo (p : TxPacket) (ls : List TxPacket) (nf mb : Nat)
    (hfl : frame_flavor p = .FLAVOR_APRS_DIGI) :
    bundle_loop [] (p :: ls) nf mb = (nf, [], p :: ls) := by
  rw [bundle_loop.eq_def]
  dsimp only
  by_cases h : nf < mb
  · rw [if_pos h]
    simp [hfl]
  · rw [if_neg h]

/-- The bundling loop never exceeds its cap when entered below it. -/
theorem bundle_loop_le (hi lo : List TxPacket) (nf mb : Nat) :
    nf ≤ mb → (bundle_loop hi lo nf mb).1 ≤ mb := by
  induction hi, lo, nf, mb using bundle_loop.induct with
  | case1 nf mb hlt =>
      intro h
      rw [bundle_loop.eq_def]
      dsimp only
      rw [if_pos hlt]
      simpa using h
  | case2 nf mb hlt p hs lo2 hfl =>
      intro h
      rw [bundle_loop_digi_hi p hs lo2 nf mb hfl]
      simpa using h
  | case3 nf mb hlt p hs lo2 hfl ih =>
      intro h
      rw [bundle_loop.eq_def]
      dsimp only
      rw [if_pos hlt]
      simp only [hfl]
      exact ih (by split_ifs <;> omega)
  | case4 nf mb hlt p hs lo2 hfl ih =>
      intro h
      rw [bundle_loop.eq_def]
      dsimp only
      rw [if_pos hlt]
      simp only [hfl]
      exact ih (by split_ifs <;> omega)
  | case5 nf mb hlt p ls hfl =>
      intro h
      rw [bundle_loop_digi_lo p ls nf mb hfl]
      simpa using h
  | case6 nf mb hlt p ls hfl ih =>
      intro h
      rw [bundle_loop.eq_def]
      dsimp only
      rw [if_pos hlt]
      simp only [hfl]
      exact ih (by split_ifs <;> omega)
  | case7 nf mb hlt p ls hfl ih =>
      intro h
      rw [bundle_loop.eq_def]
      dsimp only
      rw [if_pos hlt]
      simp only [hfl]
      exact ih (by split_ifs <;> omega)
  | case8 hi lo nf mb hge =>
      intro h
      rw [bundle_loop_stop hi lo nf mb hge]
      simpa using h

/-- C4: a transmission whose first frame is APRS-digipeated sends
exactly one frame (cap forced to 1) and leaves the queues untouched;
during bundling the loop stops rather than dequeue an APRS-digipeated
frame from either queue; all other flavors are bundled with cap 256 and
the frame count never exceeds it. -/
theorem c4_digipeat_not_bundled :
    (∀ hi lo pp, frame_flavor pp = .FLAVOR_APRS_DIGI →
      (xmit_thread_iter true (pp :: hi) lo).1 = 1 ∧
      (xmit_thread_iter true (pp :: hi) lo).2.2.2 = (hi, lo)) ∧
    (∀ lo nf mb p hs, frame_flavor p = .FLAVOR_APRS_DIGI →
      bundle_loop (p :: hs) lo nf mb = (nf, p :: hs, lo) ∧
      bundle_loop [] (p :: lo) nf mb = (nf, [], p :: lo)) ∧
    (∀ hi lo pp, frame_flavor pp ≠ .FLAVOR_APRS_DIGI →
      (xmit_thread_iter true (pp :: hi) lo).1 ≤ 256) := by
  refine ⟨?_, ?_, ?_⟩
  · intro hi lo pp hfl
    have hnn := digi_not_null pp hfl
    have hpos : 0 < send_one_frame false pp := by
      rw [send_one_frame, hnn]
      simp only [Bool.false_eq_true, if_false]
      exact nbits_pos false pp.fbuf
    have hone : (if 0 < send_one_frame false pp then 1 else 0) = 1 := if_pos hpos
    have hstop := bundle_loop_stop hi lo 1 1 (by omega)
    constructor
    · simp [xmit_thread_iter, tq_remove2, hfl, xmit_ax25_frames, hone, hstop]
    · simp [xmit_thread_iter, tq_remove2, hfl, xmit_ax25_frames, hone, hstop]
  · intro lo nf mb p hs hfl
    exact ⟨bundle_loop_digi_hi p hs lo nf mb hfl,
      bundle_loop_digi_lo p lo nf mb hfl⟩
  · intro hi lo pp hfl
    have hle : (if 0 < send_one_frame false pp then 1 else 0) ≤ 256 := by
      split_ifs <;> omega
    rcases hfv : frame_flavor pp with _ | _ | _ <;>
      simp [xmit_thread_iter, tq_remove2, hfv, xmit_ax25_frames] <;>
      first
        | exact absurd hfv hfl
        | exact bundle_loop_le hi lo _ 256 hle

/-- Witness: a concrete APRS digipeated frame is sent alone. -/
theorem c4_digipeat_not_bundled_witness :
    (xmit_thread_iter true
      [⟨2, true, 1, true, List.replicate 15 0⟩] []).1 = 1 :=
  (c4_digipeat_not_bundled.1 [] [] ⟨2, true, 1, true, List.replicate 15 0⟩
    (by decide)).1

/-! ### Claims C5 and C6: wait_for_clear_channel (xmit.c)

The function sleeps inside several loops; it is embedded as a small-step
machine.  `t` counts machine steps and indexes the environment (the
value each external input would deliver at that poll); `n` is the C
function's local retry counter shared by the busy-wait and the
device-lock loop; `elapsed` accumulates the milliseconds slept. -/

/-- External inputs of `wait_for_clear_channel`:
`hdlc_rec_data_detect_any` polls, `tq_peek(chan, TQ_PRIO_0_HI) == NULL`
polls, `rand()` draws and `dw_mutex_try_lock` outcomes, by step
index. -/
structure WaitEnv where
  dcd : Nat → Bool
  hiEmpty : Nat → Bool
  rand : Nat → Nat
  lockOk : Nat → Bool

/-- Control points of `wait_for_clear_channel`: the channel-busy loop,
the dwait sleep plus DCD recheck, the random-wait loop, the device-lock
loop, and the two exits (return 1 and return 0). -/
inductive WaitPhase where
  | busy | precheck | randwait | lock | ok | timeout
  deriving DecidableEq, Repr

structure WaitSt where
  phase : WaitPhase
  n : Nat
  t : Nat
  elapsed : Nat
  deriving DecidableEq, Repr

/-- xmit.c: give up if no clear channel within a minute. -/
def WAIT_TIMEOUT_MS : Nat := 60 * 1000

/-- xmit.c: recheck period of the busy and lock loops. -/
def WAIT_CHECK_EVERY_MS : Nat := 10

/-- One step of `wait_for_clear_channel` (xmit.c lines 969-1056):
the busy loop sleeps 10 ms per DCD poll and returns 0 once `n` exceeds
60000/10; after the channel clears, sleep `dwait*10` ms and recheck DCD
(`goto start_over_again`); the random-wait loop exits at once when a
high-priority frame is pending, otherwise sleeps `slottime*10` ms,
restarts on DCD, draws `rand() & 0xff` and proceeds if it is at most
`persist`; the lock loop retries every 10 ms under the same timeout
counter. -/
def wait_step (env : WaitEnv) (slottime persist dwait : Nat) (s : WaitSt) :
    WaitSt :=
  match s.phase with
  | .busy =>
      if env.dcd s.t then
        if s.n + 1 > WAIT_TIMEOUT_MS / WAIT_CHECK_EVERY_MS then
          { phase := .timeout, n := s.n + 1, t := s.t + 1,
            elapsed := s.elapsed + WAIT_CHECK_EVERY_MS }
        else
          { phase := .busy, n := s.n + 1, t := s.t + 1,
            elapsed := s.elapsed + WAIT_CHECK_EVERY_MS }
      else { s with phase := .precheck, t := s.t + 1 }
  | .precheck =>
      if env.dcd s.t then
        { s with phase := .busy, t := s.t + 1, elapsed := s.elapsed + dwait * 10 }
      else
        { s with phase := .randwait, t := s.t + 1, elapsed := s.elapsed + dwait * 10 }
  | .randwait =>
      if env.hiEmpty s.t then
        if env.dcd s.t then
          { s with phase := .busy, t := s.t + 1, elapsed := s.elapsed + slottime * 10 }
        else if env.rand s.t &&& 0xff ≤ persist then
          { s with phase := .lock, t := s.t + 1, elapsed := s.elapsed + slottime * 10 }
        else
          { s with phase := .randwait, t := s.t + 1, elapsed := s.elapsed + slottime * 10 }
      else { s with phase := .lock, t := s.t + 1 }
  | .lock =>
      if env.lockOk s.t then { s with phase := .ok, t := s.t + 1 }
      else if s.n + 1 > WAIT_TIMEOUT_MS / WAIT_CHECK_EVERY_MS then
        { phase := .timeout, n := s.n + 1, t := s.t + 1,
          elapsed := s.elapsed + WAIT_CHECK_EVERY_MS }
      else
        { phase := .lock, n := s.n + 1, t := s.t + 1,
          elapsed := s.elapsed + WAIT_CHECK_EVERY_MS }
  | .ok => s
  | .timeout => s

/-- Entry point: full duplex skips the channel-busy and random waits. -/
def wait_start (fulldup : Bool) : WaitSt :=
  { phase := if fulldup then .lock else .busy, n := 0, t := 0, elapsed := 0 }

/-- Run the wait machine a given number of steps. -/
def wait_run (env : WaitEnv) (slottime persist dwait : Nat) (s : WaitSt) :
    Nat → WaitSt
  | 0 => s
  | k + 1 => wait_run env slottime persist dwait
      (wait_step env slottime persist dwait s) k

theorem wait_run_succ (env : WaitEnv) (slottime persist dwait : Nat)
    (s : WaitSt) (k : Nat) :
    wait_run env slottime persist dwait s (k + 1) =
      wait_step env slottime persist dwait
        (wait_run env slottime persist dwait s k) := by
  induction k generalizing s with
  | zero => rfl
  | succ k ih =>
      rw [wait_run, ih, wait_run]

/-- C5: in the random-wait loop (channel clear, no high-priority frame
pending), each iteration sleeps `slottime*10` milliseconds and proceeds
to device acquisition exactly when the drawn byte `rand() & 0xff` is at
most `persist`; with `persist = 255` one slot always suffices; with
`persist = 0` exactly 1 of the 256 equally likely byte values proceeds
(per-slot success probability 1/256), and in general `persist+1` of 256
do. -/
theorem c5_p_persistence (env : WaitEnv) (slottime persist dwait : Nat)
    (n t e : Nat) (hdcd : env.dcd t = false) (hhi : env.hiEmpty t = true) :
    (wait_step env slottime persist dwait ⟨.randwait, n, t, e⟩ =
      if env.rand t &&& 0xff ≤ persist then
        ⟨.lock, n, t + 1, e + slottime * 10⟩
      else ⟨.randwait, n, t + 1, e + slottime * 10⟩) ∧
    (255 ≤ persist →
      wait_step env slottime persist dwait ⟨.randwait, n, t, e⟩ =
        ⟨.lock, n, t + 1, e + slottime * 10⟩) ∧
    (∀ pv : Nat, pv ≤ 255 →
      ((Finset.range 256).filter (fun r => r ≤ pv)).card = pv + 1) ∧
    ((Finset.range 256).filter (fun r => r ≤ 0)).card = 1 := by
  have hcount : ∀ pv : Nat, pv ≤ 255 →
      ((Finset.range 256).filter (fun r => r ≤ pv)).card = pv + 1 := by
    intro pv hpv
    have hset : (Finset.range 256).filter (fun r => r ≤ pv) =
        Finset.range (pv + 1) := by
      ext r
      simp [Finset.mem_filter, Finset.mem_range]
      omega
    rw [hset, Finset.card_range]
  refine ⟨?_, ?_, hcount, hcount 0 (by omega)⟩
  · by_cases hr : env.rand t &&& 0xff ≤ persist <;>
      simp [wait_step, hdcd, hhi, hr]
  · intro hp
    have hr : env.rand t &&& 0xff ≤ persist :=
      le_trans Nat.and_le_right hp
    simp [wait_step, hdcd, hhi, hr]

/-- All-clear environment for the C5 witness. -/
def waitEnvClear : WaitEnv :=
  ⟨fun _ => false, fun _ => true, fun _ => 17, fun _ => true⟩

/-- Witness for C5: with persist 255 the machine leaves the random wait
for the lock phase after exactly one slot sleep. -/
theorem c5_p_persistence_witness :
    wait_step waitEnvClear 10 255 0 ⟨.randwait, 0, 3, 40⟩ =
      ⟨.lock, 0, 4, 140⟩ :=
  (c5_p_persistence waitEnvClear 10 255 0 0 3 40 rfl rfl).2.1 (by omega)

theorem wait_budget : WAIT_TIMEOUT_MS / WAIT_CHECK_EVERY_MS = 6000 := by
  norm_num [WAIT_TIMEOUT_MS, WAIT_CHECK_EVERY_MS]

/-- A busy channel advances the busy loop one poll at a time. -/
theorem busy_run (env : WaitEnv) (slottime persist dwait : Nat)
    (hdcd : ∀ u, env.dcd u = true) (k : Nat) :
    ∀ n t e, n + k ≤ 6000 →
      wait_run env slottime persist dwait ⟨.busy, n, t, e⟩ k =
        ⟨.busy, n + k, t + k, e + 10 * k⟩ := by
  induction k with
  | zero => intro n t e h; simp [wait_run]
  | succ k ih =>
      intro n t e h
      have hle : ¬ n + 1 > (6000 : Nat) := by omega
      have hstep : wait_step env slottime persist dwait ⟨.busy, n, t, e⟩ =
          ⟨.busy, n + 1, t + 1, e + 10⟩ := by
        simp [wait_step, hdcd, wait_budget, hle, WAIT_CHECK_EVERY_MS, WAIT_TIMEOUT_MS]
      rw [wait_run, hstep, ih (n + 1) (t + 1) (e + 10) (by omega)]
      simp only [WaitSt.mk.injEq]
      refine ⟨by trivial, by omega, by omega, by omega⟩

/-- A permanently failing device lock advances the lock loop one try at
a time. -/
theorem lock_run (env : WaitEnv) (slottime persist dwait : Nat)
    (hlock : ∀ u, env.lockOk u = false) (k : Nat) :
    ∀ n t e, n + k ≤ 6000 →
      wait_run env slottime persist dwait ⟨.lock, n, t, e⟩ k =
        ⟨.lock, n + k, t + k, e + 10 * k⟩ := by
  induction k with
  | zero => intro n t e h; simp [wait_run]
  | succ k ih =>
      intro n t e h
      have hle : ¬ n + 1 > (6000 : Nat) := by omega
      have hstep : wait_step env slottime persist dwait ⟨.lock, n, t, e⟩ =
          ⟨.lock, n + 1, t + 1, e + 10⟩ := by
        simp [wait_step, hlock, wait_budget, hle, WAIT_CHECK_EVERY_MS, WAIT_TIMEOUT_MS]
      rw [wait_run, hstep, ih (n + 1) (t + 1) (e + 10) (by omega)]
      simp only [WaitSt.mk.injEq]
      refine ⟨by trivial, by omega, by omega, by omega⟩

/-- C6: with DCD asserted at every poll (half duplex), the scheduler
polls every 10 ms and gives up (return 0) once `n` exceeds the
60000 ms / 10 ms budget — 6001 polls, 60010 ms slept, transmission never
reached; the same shared budget governs the device-lock loop; and after
a timed-out wait the transmit thread sends nothing, removes the head
frame, reports it with an error log line and frees it, leaving the
remaining queues to be processed next. -/
theorem c6_timeout_discards_frame (env : WaitEnv)
    (slottime persist dwait : Nat) :
    ((∀ u, env.dcd u = true) →
      wait_run env slottime persist dwait (wait_start false) 6001 =
        ⟨.timeout, 6001, 6001, 60010⟩) ∧
    ((∀ u, env.lockOk u = false) →
      wait_run env slottime persist dwait (wait_start true) 6001 =
        ⟨.timeout, 6001, 6001, 60010⟩) ∧
    (∀ pp hi lo, xmit_thread_iter false (pp :: hi) lo =
      (0, some pp, true, hi, lo)) := by
  have h61 : (6001 : Nat) = 6000 + 1 := by norm_num
  refine ⟨?_, ?_, ?_⟩
  · intro hdcd
    rw [h61, wait_run_succ]
    rw [show wait_start false = ⟨.busy, 0, 0, 0⟩ from rfl]
    rw [busy_run env slottime persist dwait hdcd 6000 0 0 0 (by omega)]
    simp [wait_step, hdcd, wait_budget, WAIT_CHECK_EVERY_MS, WAIT_TIMEOUT_MS]
  · intro hlock
    rw [h61, wait_run_succ]
    rw [show wait_start true = ⟨.lock, 0, 0, 0⟩ from rfl]
    rw [lock_run env slottime persist dwait hlock 6000 0 0 0 (by omega)]
    simp [wait_step, hlock, wait_budget, WAIT_CHECK_EVERY_MS, WAIT_TIMEOUT_MS]
  · intro pp hi lo
    rfl

/-- Always-busy environment for the C6 witness. -/
def waitEnvBusy : WaitEnv :=
  ⟨fun _ => true, fun _ => true, fun _ => 0, fun _ => false⟩

/-- Witness for C6: the always-busy channel times out after 6001 polls
and the head frame of a concrete queue is then discarded unsent. -/
theorem c6_timeout_discards_frame_witness :
    wait_run waitEnvBusy 10 63 0 (wait_start false) 6001 =
      ⟨.timeout, 6001, 6001, 60010⟩ ∧
    xmit_thread_iter false [⟨2, true, 0, false, [1, 2, 3]⟩] [] =
      (0, some ⟨2, true, 0, false, [1, 2, 3]⟩, true, [], []) :=
  ⟨(c6_timeout_discards_frame waitEnvBusy 10 63 0).1 (fun _ => rfl),
   (c6_timeout_discards_frame waitEnvBusy 10 63 0).2.2
     ⟨2, true, 0, false, [1, 2, 3]⟩ [] []⟩

end Direwolf
